import Mathlib

/-!
Verification of the appointment-booking core of das622/appointment-booking-api.

Shallow embedding conventions:
- A naive local instant (Python `datetime`) is a `Nat`: minutes since an epoch
  midnight; the epoch day is a Monday, matching Python's `weekday()` where
  Monday = 0.
- A calendar date (Python `date`) is a `Nat`: days since the epoch.
- A time of day (Python `time`) is a `Nat`: minutes since midnight (< 1440).
- `datetime.date()` is `dateOf`, `datetime.minute` is `minuteOfHour`,
  `datetime.combine` is `combine`, `timedelta(minutes=n)` is `+ n`.
- An `HTTPException(status_code, detail)` is an `HTTPError`; fallible routes
  return `Except HTTPError (result × DB)`.  Returning `.error` models raising:
  the caller's `DB` is untouched (the transaction is rolled back in full).
- The SQLite stores are lists inside one `DB` record; `session.get(Model, pk)`
  is a first-match `List.find?` on the primary-key field, `select ... where`
  is `List.filter`, and a row update is an id-directed `List.map`.
- The legacy in-memory variant in `app/main.py` uses the same `DB` record
  carrier (its module-level lists have the same fields); its operations are
  the `mem_*` definitions below.
-/

/-- Minute-of-hour component of an instant (Python `datetime.minute`, also
`time.minute` for a time of day measured in minutes since midnight). -/
def minuteOfHour (t : Nat) : Nat := t % 60

/-- Calendar date of an instant (Python `datetime.date()`). -/
def dateOf (t : Nat) : Nat := t / 1440

/-- Weekday of a date, Monday = 0 (Python `date.weekday()`; the model's epoch
day 0 is a Monday). -/
def weekday (d : Nat) : Nat := d % 7

/-- Python `datetime.combine(date, time)` for a time given in minutes since
midnight. -/
def combine (d : Nat) (m : Nat) : Nat := d * 1440 + m

/-- Time-of-day of an instant (Python `datetime.time()`), in minutes. -/
def timeOfDay (t : Nat) : Nat := t % 1440

/-- Two-digit zero-padded decimal rendering, as in Python `%H` / `%M`. -/
def pad2 (n : Nat) : String := if n < 10 then "0" ++ toString n else toString n

/-- Python `time.strftime("%H:%M")` on a time of day in minutes. -/
def fmtHM (m : Nat) : String := pad2 (m / 60) ++ ":" ++ pad2 (m % 60)

/-- Interval-overlap primitive from app/core.py (its definition is preserved
verbatim in the commented legacy block of app/main.py lines 511-512):
half-open intervals, `start_a < end_b and start_b < end_a`. -/
def overlaps (start_a end_a start_b end_b : Nat) : Bool :=
  decide (start_a < end_b) && decide (start_b < end_a)

/-- Service catalog from app/data.py (`SERVICES`). -/
def SERVICES : List (String × Nat) :=
  [("shape_up", 15), ("beard_trim", 15), ("haircut", 30),
   ("fade", 30), ("scissors_cut", 30), ("cut_and_beard", 45)]

/-- Dictionary lookup `SERVICES[key]` / membership `key in SERVICES`. -/
def serviceMinutes (s : String) : Option Nat :=
  (SERVICES.find? (fun p => p.fst == s)).map (fun p => p.snd)

/-- Shop slot granularity, app/data.py `shop_settings["slot_minutes"]`. -/
def slot_minutes : Nat := 15

/-- app/models.py `Appointment` row (SQLModel table).  The table carries a
unique constraint `uq_barber_start` on `(barber_email, starts_at)`. -/
structure Appointment where
  id : Nat
  starts_at : Nat
  client_email : String
  barber_email : String
  service : String
  status : String
deriving DecidableEq, Repr

/-- app/models.py `BarberSchedule` row; `barber_email` is the primary key. -/
structure BarberSchedule where
  barber_email : String
  working_days : List Nat
  day_start : Nat
  day_end : Nat
deriving DecidableEq, Repr

/-- app/models.py `BarberBlock` row.  The source column `end` is `end_` here
(`end` is reserved in Lean). -/
structure BarberBlock where
  id : Nat
  barber_email : String
  date : Nat
  start : Nat
  end_ : Nat
  kind : String
deriving DecidableEq, Repr

/-- The transactional store: the three tables the scheduling core touches
(app/db.py SQLite database; equally the module-level lists of app/data.py
used by the legacy in-memory routes). -/
structure DB where
  appointments : List Appointment
  schedules : List BarberSchedule
  blocks : List BarberBlock
deriving DecidableEq, Repr

/-- app/schemas.py `BarberSchedule` request body (no email; the caller's). -/
structure BarberScheduleIn where
  working_days : List Nat
  day_start : Nat
  day_end : Nat
deriving DecidableEq, Repr

/-- app/schemas.py `AppointmentCreate` (provider-create request body). -/
structure AppointmentCreate where
  starts_at : Nat
  client_email : String
  service : String
deriving DecidableEq, Repr

/-- app/schemas.py `ClientAppointmentCreate` (client-create request body). -/
structure ClientAppointmentCreate where
  starts_at : Nat
  service : String
deriving DecidableEq, Repr

/-- app/schemas.py `BlockKind`. -/
inductive BlockKind where
  | lunch_break
  | day_off
deriving DecidableEq, Repr

/-- The `.value` of the string enum `BlockKind`. -/
def BlockKind.value : BlockKind → String
  | .lunch_break => "lunch_break"
  | .day_off => "day_off"

/-- app/schemas.py `BlockCreate` request body. -/
structure BlockCreate where
  date : Nat
  start_time : Nat
  kind : BlockKind
deriving DecidableEq, Repr

/-- A raised `HTTPException(status_code, detail)`. -/
structure HTTPError where
  status : Nat
  detail : String
deriving DecidableEq, Repr

/-! ## Store helpers -/

/-- Primary-key lookup `session.get(BarberScheduleModel, email)`; also the
first-match loop over `barber_schedules_db` in the legacy in-memory routes. -/
def findSchedule (db : DB) (email : String) : Option BarberSchedule :=
  db.schedules.find? (fun s => s.barber_email == email)

/-- SQLite integer-primary-key assignment for a fresh appointment row. -/
def nextApptId (db : DB) : Nat :=
  (db.appointments.map (fun a => a.id)).foldr Nat.max 0 + 1

/-- SQLite integer-primary-key assignment for a fresh block row. -/
def nextBlockId (db : DB) : Nat :=
  (db.blocks.map (fun b => b.id)).foldr Nat.max 0 + 1

/-- Query `select(BarberBlockModel).where(barber_email == email).where(date == d)`
used by block conflict checks, booking, and availability; also the equivalent
skip-on-mismatch loops of the in-memory routes. -/
def blocksForDay (db : DB) (email : String) (date : Nat) : List BarberBlock :=
  db.blocks.filter (fun b => b.barber_email == email && b.date == date)

/-- Query `select(Appointment).where(barber_email == email)
.where(starts_at >= combine(date, 00:00)).where(starts_at < that + 1 day)`
used by the store-backed availability route. -/
def apptsForDay (db : DB) (email : String) (date : Nat) : List Appointment :=
  db.appointments.filter (fun a =>
    a.barber_email == email &&
    decide (combine date 0 ≤ a.starts_at) &&
    decide (a.starts_at < combine date 0 + 1440))

/-- The per-appointment conflict test of the store-backed booking loops:
skip rows whose status is not booked or whose service key is unknown, else
compare half-open intervals. -/
def apptOverlapCheck (dur appt_start : Nat) (a : Appointment) : Bool :=
  a.status == "booked" &&
  match serviceMinutes a.service with
  | none => false
  | some d => overlaps appt_start (appt_start + dur) a.starts_at (a.starts_at + d)

/-- Query `select(Appointment).where(barber_email == email)
.where(starts_at >= ws).where(starts_at < we)` used by the store-backed
booking routes (`ws`/`we` are the working-window datetimes). -/
def apptsInWindow (db : DB) (email : String) (ws we : Nat) : List Appointment :=
  db.appointments.filter (fun a =>
    a.barber_email == email && decide (ws ≤ a.starts_at) && decide (a.starts_at < we))

/-- The block-overlap rejection test of the booking routes. -/
def blockConflictAny (db : DB) (email : String) (date appt_start appt_end : Nat) : Bool :=
  (blocksForDay db email date).any (fun b => overlaps appt_start appt_end b.start b.end_)

/-- The `uq_barber_start` unique constraint of app/models.py: a commit
inserting a row with the same `(barber_email, starts_at)` as any existing row
(whatever its status) raises IntegrityError. -/
def hasSameStart (db : DB) (email : String) (s : Nat) : Bool :=
  db.appointments.any (fun a => a.barber_email == email && a.starts_at == s)

/-- The per-appointment conflict test of the legacy in-memory booking loops
in app/main.py: filters by calendar date and known service key only — note
there is no status filter there. -/
def memApptConflict (dur appt_start appt_date : Nat) (a : Appointment) : Bool :=
  dateOf a.starts_at == appt_date &&
  match serviceMinutes a.service with
  | none => false
  | some d => overlaps appt_start (appt_start + dur) a.starts_at (a.starts_at + d)

/-! ## Store-backed routes (app/routers) -/

/-- PUT /barbers/me/schedule (app/routers/barbers_routes.py `create_schedule`):
validates working_days (non-empty, range, no duplicates) and day_start <
day_end, then upserts the one schedule row keyed by the caller's email. -/
def create_schedule (db : DB) (email : String) (schedule : BarberScheduleIn) :
    Except HTTPError (BarberSchedule × DB) :=
  if schedule.working_days.isEmpty then
    .error ⟨422, "working_days must contain at least one day"⟩
  else if !(schedule.working_days.all (fun day => decide (day ≤ 6))) then
    .error ⟨422, "working_days must be integers between 0 and 6"⟩
  else if schedule.working_days.length != schedule.working_days.dedup.length then
    .error ⟨422, "working_days cannot contain duplicates"⟩
  else if decide (schedule.day_end ≤ schedule.day_start) then
    .error ⟨422, "day_start cannot be greater than day_end"⟩
  else
    let row : BarberSchedule :=
      ⟨email, schedule.working_days, schedule.day_start, schedule.day_end⟩
    match findSchedule db email with
    | none => .ok (row, { db with schedules := db.schedules ++ [row] })
    | some _ =>
        let updated := db.schedules.map (fun t => if t.barber_email == email then row else t)
        .ok (row, { db with schedules := updated })

/-- PUT /barbers/me/blocks (app/routers/barbers_routes.py `barber_block`):
schedule required, working day, 15-minute alignment of start_time, block
interval construction per kind, working-window containment, no overlap with
an existing block for this barber+date, then insert. -/
def barber_block (db : DB) (email : String) (block : BlockCreate) :
    Except HTTPError (BarberBlock × DB) :=
  match findSchedule db email with
  | none => .error ⟨409, "Weekly schedule must be set before adding blocks"⟩
  | some schedule =>
    if !(schedule.working_days.contains (weekday block.date)) then
      .error ⟨422, "Not scheduled to work that day"⟩
    else if minuteOfHour block.start_time % 15 != 0 then
      .error ⟨422, "Time must be in increaments of 15"⟩
    else
      let work_start := combine block.date schedule.day_start
      let work_end := combine block.date schedule.day_end
      let block_start :=
        match block.kind with
        | .lunch_break => combine block.date block.start_time
        | .day_off => combine block.date schedule.day_start
      let block_end :=
        match block.kind with
        | .lunch_break => combine block.date block.start_time + 30
        | .day_off => combine block.date schedule.day_end
      if decide (block_start < work_start) || decide (work_end < block_end) then
        .error ⟨422, "Block must be within working hours"⟩
      else if (blocksForDay db email block.date).any (fun eb =>
          decide (block_start < eb.end_) && decide (eb.start < block_end)) then
        .error ⟨409, "Block overlaps existing block"⟩
      else
        let row : BarberBlock :=
          ⟨nextBlockId db, email, block.date, block_start, block_end, block.kind.value⟩
        .ok (row, { db with blocks := db.blocks ++ [row] })

/-- The slot-generation loop of `barber_availability`: while
current + slot_delta <= work_end, collect current and step by slot_delta.
Structural fuel recursion; `gridSlots` supplies always-sufficient fuel. -/
def gridSlotsAux : Nat → Nat → Nat → List Nat
  | 0, _, _ => []
  | fuel + 1, cur, work_end =>
      if cur + slot_minutes ≤ work_end then
        cur :: gridSlotsAux fuel (cur + slot_minutes) work_end
      else []

/-- The candidate slot grid over the working window `[work_start, work_end)`. -/
def gridSlots (work_start work_end : Nat) : List Nat :=
  gridSlotsAux (work_end - work_start + 1) work_start work_end

/-- The per-slot exclusion test of `barber_availability` step 6: the slot
`[s, s+15)` overlaps some block of the day, or some booked-status appointment
of the day whose service is in the catalog (others are skipped). -/
def slotTaken (blocks : List BarberBlock) (appts : List Appointment) (s : Nat) : Bool :=
  blocks.any (fun b => overlaps s (s + slot_minutes) b.start b.end_) ||
  appts.any (apptOverlapCheck slot_minutes s)

/-- Surviving slot starts of `barber_availability` step 6 for a schedule. -/
def availSlots (db : DB) (email : String) (date : Nat) (sched : BarberSchedule) :
    List Nat :=
  (gridSlots (combine date sched.day_start) (combine date sched.day_end)).filter
    (fun s => !(slotTaken (blocksForDay db email date) (apptsForDay db email date) s))

/-- The slot-start instants the availability route emits (before "%H:%M"
formatting): empty when the weekday is not a working day or a day_off block
exists for this barber+date, the filtered grid otherwise. -/
def availReturned (db : DB) (email : String) (date : Nat) : List Nat :=
  match findSchedule db email with
  | none => []
  | some sched =>
    if !(sched.working_days.contains (weekday date)) then []
    else if (blocksForDay db email date).any (fun b => b.kind == BlockKind.day_off.value) then []
    else availSlots db email date sched

/-- GET /barbers/{barber_email}/availability
(app/routers/barbers_routes.py `barber_availability`). -/
def barber_availability (db : DB) (email : String) (date : Nat) :
    Except HTTPError (List String) :=
  match findSchedule db email with
  | none => .error ⟨404, "Barber Not Found"⟩
  | some _ => .ok ((availReturned db email date).map (fun s => fmtHM (timeOfDay s)))

/-- POST /appointments (app/routers/appointments_routes.py `create_appointment`,
provider-create): service catalog, 15-minute alignment, past check against the
current instant `now`, schedule required (409), working day, working window,
block overlap, overlap with booked known-service appointments whose start lies
in the working window, then insert; a violation of the `uq_barber_start`
uniqueness constraint (same barber_email and starts_at as any existing row)
makes the commit raise IntegrityError, which rolls back and maps to 409. -/
def create_appointment (db : DB) (barber_email : String) (appt : AppointmentCreate)
    (now : Nat) : Except HTTPError (Appointment × DB) :=
  match serviceMinutes appt.service with
  | none => .error ⟨422, "Service not available"⟩
  | some dur =>
    if minuteOfHour appt.starts_at % slot_minutes != 0 then
      .error ⟨422, "Start time must be in 15-minute increments"⟩
    else
      let appt_start := appt.starts_at
      let appt_end := appt_start + dur
      let appt_date := dateOf appt_start
      if decide (appt_start < now) then
        .error ⟨422, "Cannot book an appointment in the past"⟩
      else
        match findSchedule db barber_email with
        | none => .error ⟨409, "Weekly schedule must be set before creating appointments"⟩
        | some schedule =>
          if !(schedule.working_days.contains (weekday appt_date)) then
            .error ⟨422, "Barber is not scheduled to work that day"⟩
          else
            let work_start := combine appt_date schedule.day_start
            let work_end := combine appt_date schedule.day_end
            if decide (appt_start < work_start) || decide (work_end < appt_end) then
              .error ⟨422, "Appointment must be within working hours"⟩
            else if blockConflictAny db barber_email appt_date appt_start appt_end then
              .error ⟨409, "Appointment overlaps a block"⟩
            else if (apptsInWindow db barber_email work_start work_end).any
                (apptOverlapCheck dur appt_start) then
              .error ⟨409, "Appointment overlaps an existing appointment"⟩
            else
              let row : Appointment :=
                ⟨nextApptId db, appt_start, appt.client_email, barber_email,
                 appt.service, "booked"⟩
              if hasSameStart db barber_email appt_start then
                .error ⟨409, "Appointment already exists for that start time"⟩
              else
                .ok (row, { db with appointments := db.appointments ++ [row] })

/-- POST /barbers/{barber_email}/appointments
(app/routers/appointments_routes.py `client_create_appointment`): identical
pipeline to provider-create except the barber comes from the path (absence is
404 "Barber Not Found") and the client is the logged-in user. -/
def client_create_appointment (db : DB) (barber_email : String)
    (client_email : String) (appt : ClientAppointmentCreate) (now : Nat) :
    Except HTTPError (Appointment × DB) :=
  match serviceMinutes appt.service with
  | none => .error ⟨422, "Service not available"⟩
  | some dur =>
    if minuteOfHour appt.starts_at % slot_minutes != 0 then
      .error ⟨422, "Start time must be in 15-minute increments"⟩
    else
      let appt_start := appt.starts_at
      let appt_end := appt_start + dur
      let appt_date := dateOf appt_start
      if decide (appt_start < now) then
        .error ⟨422, "Cannot book an appointment in the past"⟩
      else
        match findSchedule db barber_email with
        | none => .error ⟨404, "Barber Not Found"⟩
        | some schedule =>
          if !(schedule.working_days.contains (weekday appt_date)) then
            .error ⟨422, "Barber is not scheduled to work that day"⟩
          else
            let work_start := combine appt_date schedule.day_start
            let work_end := combine appt_date schedule.day_end
            if decide (appt_start < work_start) || decide (work_end < appt_end) then
              .error ⟨422, "Appointment must be within working hours"⟩
            else if blockConflictAny db barber_email appt_date appt_start appt_end then
              .error ⟨409, "Appointment overlaps a block"⟩
            else if (apptsInWindow db barber_email work_start work_end).any
                (apptOverlapCheck dur appt_start) then
              .error ⟨409, "Appointment overlaps an existing appointment"⟩
            else
              let row : Appointment :=
                ⟨nextApptId db, appt_start, client_email, barber_email,
                 appt.service, "booked"⟩
              if hasSameStart db barber_email appt_start then
                .error ⟨409, "Appointment already exists for that start time"⟩
              else
                .ok (row, { db with appointments := db.appointments ++ [row] })

/-- PATCH /appointments/{appt_id}/cancel
(app/routers/appointments_routes.py `cancel_appointment`). -/
def cancel_appointment (db : DB) (appt_id : Nat) (user_email : String) :
    Except HTTPError (Appointment × DB) :=
  match db.appointments.find? (fun a => a.id == appt_id) with
  | none => .error ⟨404, "Appointment not found"⟩
  | some target =>
    if target.status == "canceled" then
      .error ⟨409, "Appointment already canceled"⟩
    else if user_email != target.client_email && user_email != target.barber_email then
      .error ⟨403, "Forbidden"⟩
    else
      .ok ({ target with status := "canceled" },
           { db with appointments := db.appointments.map (fun a =>
               if a.id == appt_id then { a with status := "canceled" } else a) })

/-! ## Legacy in-memory routes (app/main.py) -/

/-- PUT /barbers/me/schedule in app/main.py `create_schedule`: same validation
as the store-backed route, but the new record is unconditionally appended to
`barber_schedules_db` (no replacement of an existing record). -/
def mem_create_schedule (db : DB) (email : String) (schedule : BarberScheduleIn) :
    Except HTTPError (BarberSchedule × DB) :=
  if schedule.working_days.isEmpty then
    .error ⟨422, "working_days must contain at least one day"⟩
  else if !(schedule.working_days.all (fun day => decide (day ≤ 6))) then
    .error ⟨422, "working_days must be integers between 0 and 6"⟩
  else if schedule.working_days.length != schedule.working_days.dedup.length then
    .error ⟨422, "working_days cannot contain duplicates"⟩
  else if decide (schedule.day_end ≤ schedule.day_start) then
    .error ⟨422, "day_start cannot be greater than day_end"⟩
  else
    let row : BarberSchedule :=
      ⟨email, schedule.working_days, schedule.day_start, schedule.day_end⟩
    .ok (row, { db with schedules := db.schedules ++ [row] })

/-- POST /appointments in app/main.py `create_appointment` (in-memory
provider-create): no past-instant check; the overlap loop filters by calendar
date and known service only — it has no status filter, so canceled
appointments also conflict; no storage uniqueness constraint. -/
def mem_create_appointment (db : DB) (barber_email : String)
    (appt : AppointmentCreate) : Except HTTPError (Appointment × DB) :=
  match serviceMinutes appt.service with
  | none => .error ⟨422, "Service not available"⟩
  | some dur =>
    if minuteOfHour appt.starts_at % slot_minutes != 0 then
      .error ⟨422, "Start time must be in 15-minute increments"⟩
    else
      let appt_start := appt.starts_at
      let appt_end := appt_start + dur
      let appt_date := dateOf appt_start
      match findSchedule db barber_email with
      | none => .error ⟨409, "Weekly schedule must be set before creating appointments"⟩
      | some schedule =>
        if !(schedule.working_days.contains (weekday appt_date)) then
          .error ⟨422, "Barber is not scheduled to work that day"⟩
        else
          let work_start := combine appt_date schedule.day_start
          let work_end := combine appt_date schedule.day_end
          if decide (appt_start < work_start) || decide (work_end < appt_end) then
            .error ⟨422, "Appointment must be within working hours"⟩
          else if blockConflictAny db barber_email appt_date appt_start appt_end then
            .error ⟨409, "Appointment overlaps a block"⟩
          else if db.appointments.any (fun a =>
              a.barber_email == barber_email && memApptConflict dur appt_start appt_date a) then
            .error ⟨409, "Appointment overlaps an existing appointment"⟩
          else
            let row : Appointment :=
              ⟨db.appointments.length + 1, appt_start, appt.client_email,
               barber_email, appt.service, "booked"⟩
            .ok (row, { db with appointments := db.appointments ++ [row] })

/-- POST /barbers/{barber_email}/appointments in app/main.py
`client_create_appointment` (in-memory client-create): same as the in-memory
provider path except schedule absence is 404 and the client is the caller. -/
def mem_client_create_appointment (db : DB) (barber_email : String)
    (client_email : String) (appt : ClientAppointmentCreate) :
    Except HTTPError (Appointment × DB) :=
  match serviceMinutes appt.service with
  | none => .error ⟨422, "Service not available"⟩
  | some dur =>
    if minuteOfHour appt.starts_at % slot_minutes != 0 then
      .error ⟨422, "Start time must be in 15-minute increments"⟩
    else
      let appt_start := appt.starts_at
      let appt_end := appt_start + dur
      let appt_date := dateOf appt_start
      match findSchedule db barber_email with
      | none => .error ⟨404, "Barber Not Found"⟩
      | some schedule =>
        if !(schedule.working_days.contains (weekday appt_date)) then
          .error ⟨422, "Barber is not scheduled to work that day"⟩
        else
          let work_start := combine appt_date schedule.day_start
          let work_end := combine appt_date schedule.day_end
          if decide (appt_start < work_start) || decide (work_end < appt_end) then
            .error ⟨422, "Appointment must be within working hours"⟩
          else if blockConflictAny db barber_email appt_date appt_start appt_end then
            .error ⟨409, "Appointment overlaps a block"⟩
          else if db.appointments.any (fun a =>
              a.barber_email == barber_email && memApptConflict dur appt_start appt_date a) then
            .error ⟨409, "Appointment overlaps an existing appointment"⟩
          else
            let row : Appointment :=
              ⟨db.appointments.length + 1, appt_start, client_email,
               barber_email, appt.service, "booked"⟩
            .ok (row, { db with appointments := db.appointments ++ [row] })

/-! ## Spec-side notions -/

/-- The error of a route outcome, if any. -/
def resultError {α : Type} : Except HTTPError α → Option HTTPError
  | .error e => some e
  | .ok _ => none

/-- The first failing check of an ordered validation pipeline. -/
def firstFailure (cs : List (Bool × HTTPError)) : Option HTTPError :=
  (cs.find? (fun c => c.fst)).map (fun c => c.snd)

/-- Two appointment rows do not violate the booked-interval invariant: they
may share a provider with both statuses booked and catalog services only if
their derived half-open intervals do not overlap. -/
def noConflict (a b : Appointment) : Bool :=
  !(a.barber_email == b.barber_email && a.status == "booked" && b.status == "booked" &&
    match serviceMinutes a.service, serviceMinutes b.service with
    | some da, some dbm =>
        overlaps a.starts_at (a.starts_at + da) b.starts_at (b.starts_at + dbm)
    | _, _ => false)

/-- The per-provider no-double-booking invariant over a ledger: every pair of
appointments is conflict-free. -/
def noDoubleBooking : List Appointment → Bool
  | [] => true
  | a :: rest => rest.all (fun b => noConflict a b) && noDoubleBooking rest

/-! ## Grid lemmas -/

theorem gridSlotsAux_mem (we : Nat) :
    ∀ (fuel cur s : Nat), we < cur + slot_minutes * fuel →
      (s ∈ gridSlotsAux fuel cur we ↔
        ∃ k, s = cur + slot_minutes * k ∧ s + slot_minutes ≤ we) := by
  intro fuel
  induction fuel with
  | zero =>
      intro cur s h
      simp only [gridSlotsAux, List.not_mem_nil, false_iff, slot_minutes] at *
      rintro ⟨k, rfl, hle⟩
      omega
  | succ f ih =>
      intro cur s h
      simp only [slot_minutes] at *
      by_cases hc : cur + 15 ≤ we
      · simp only [gridSlotsAux, slot_minutes, if_pos hc, List.mem_cons]
        have ih2 := ih (cur + 15) s (by omega)
        simp only [slot_minutes] at ih2
        rw [ih2]
        constructor
        · rintro (rfl | ⟨k, rfl, hk⟩)
          · exact ⟨0, by omega, hc⟩
          · exact ⟨k + 1, by omega, hk⟩
        · rintro ⟨k, rfl, hk⟩
          cases k with
          | zero => left; omega
          | succ k => right; exact ⟨k, by omega, hk⟩
      · simp only [gridSlotsAux, slot_minutes, if_neg hc, List.not_mem_nil, false_iff]
        rintro ⟨k, rfl, hk⟩
        omega

/-- Membership in the slot grid: exactly the instants work_start + 15k whose
slot fits inside the working window. -/
theorem gridSlots_mem (ws we s : Nat) :
    s ∈ gridSlots ws we ↔ ∃ k, s = ws + slot_minutes * k ∧ s + slot_minutes ≤ we := by
  have h : we < ws + slot_minutes * (we - ws + 1) := by simp [slot_minutes]; omega
  exact gridSlotsAux_mem we (we - ws + 1) ws s h

theorem gridSlotsAux_lower :
    ∀ (fuel cur we s : Nat), s ∈ gridSlotsAux fuel cur we → cur ≤ s := by
  intro fuel
  induction fuel with
  | zero => intro cur we s h; simp [gridSlotsAux] at h
  | succ f ih =>
      intro cur we s h
      simp only [gridSlotsAux] at h
      by_cases hc : cur + slot_minutes ≤ we
      · rw [if_pos hc] at h
        rcases List.mem_cons.mp h with rfl | h2
        · exact Nat.le_refl s
        · have := ih (cur + slot_minutes) we s h2
          omega
      · rw [if_neg hc] at h
        simp at h

theorem gridSlotsAux_pairwise :
    ∀ (fuel cur we : Nat), List.Pairwise (fun a b => a < b) (gridSlotsAux fuel cur we) := by
  intro fuel
  induction fuel with
  | zero => intro cur we; simp [gridSlotsAux]
  | succ f ih =>
      intro cur we
      simp only [gridSlotsAux]
      by_cases hc : cur + slot_minutes ≤ we
      · rw [if_pos hc]
        refine List.pairwise_cons.mpr ⟨fun b hb => ?_, ih (cur + slot_minutes) we⟩
        have := gridSlotsAux_lower f (cur + slot_minutes) we b hb
        simp only [slot_minutes] at this ⊢
        omega
      · rw [if_neg hc]; exact List.Pairwise.nil

/-- The slot grid is strictly increasing (chronological order). -/
theorem gridSlots_pairwise (ws we : Nat) :
    List.Pairwise (fun a b => a < b) (gridSlots ws we) :=
  gridSlotsAux_pairwise (we - ws + 1) ws we

/-- C5: overlaps(startA, endA, startB, endB) is true iff
startA < endB AND startB < endA; touching intervals (such as
[600,615) and [615,630), i.e. 10:00-10:15 vs 10:15-10:30) do not overlap;
and overlaps is symmetric in its two intervals. -/
theorem overlaps_spec :
    (∀ a b c d : Nat, overlaps a b c d = true ↔ a < d ∧ c < b) ∧
    (∀ x y z : Nat, overlaps x y y z = false) ∧
    (∀ a b c d : Nat, overlaps a b c d = overlaps c d a b) := by
  refine ⟨fun a b c d => ?_, fun x y z => ?_, fun a b c d => ?_⟩
  · simp [overlaps]
  · simp [overlaps]
  · simp only [overlaps, Bool.and_comm]

/-! ## Booking-route evaluation lemmas -/

theorem client_create_eval (db : DB) (p ce svc : String) (s now dur : Nat)
    (sched : BarberSchedule)
    (h1 : serviceMinutes svc = some dur)
    (h2 : minuteOfHour s % 15 = 0)
    (h3 : now ≤ s)
    (h4 : findSchedule db p = some sched)
    (h5 : sched.working_days.contains (weekday (dateOf s)) = true)
    (h6 : combine (dateOf s) sched.day_start ≤ s)
    (h7 : s + dur ≤ combine (dateOf s) sched.day_end) :
    client_create_appointment db p ce ⟨s, svc⟩ now =
      (if blockConflictAny db p (dateOf s) s (s + dur) then
        .error ⟨409, "Appointment overlaps a block"⟩
      else if (apptsInWindow db p (combine (dateOf s) sched.day_start)
          (combine (dateOf s) sched.day_end)).any (apptOverlapCheck dur s) then
        .error ⟨409, "Appointment overlaps an existing appointment"⟩
      else if hasSameStart db p s then
        .error ⟨409, "Appointment already exists for that start time"⟩
      else
        .ok (⟨nextApptId db, s, ce, p, svc, "booked"⟩,
             { db with appointments :=
                db.appointments ++ [⟨nextApptId db, s, ce, p, svc, "booked"⟩] })) := by
  have h3' : ¬ (s < now) := by omega
  have h6' : ¬ (s < combine (dateOf s) sched.day_start) := by omega
  have h7' : ¬ (combine (dateOf s) sched.day_end < s + dur) := by omega
  unfold client_create_appointment
  simp only [h1, h4, slot_minutes, h2, h5, h3', h6', h7', bne_self_eq_false,
    Bool.not_true, Bool.false_eq_true, if_false, Bool.or_self,
    Bool.false_or, decide_eq_false_iff_not, not_false_eq_true, ite_false]
  simp [h3', h6', h7']

theorem create_eval (db : DB) (p ce svc : String) (s now dur : Nat)
    (sched : BarberSchedule)
    (h1 : serviceMinutes svc = some dur)
    (h2 : minuteOfHour s % 15 = 0)
    (h3 : now ≤ s)
    (h4 : findSchedule db p = some sched)
    (h5 : sched.working_days.contains (weekday (dateOf s)) = true)
    (h6 : combine (dateOf s) sched.day_start ≤ s)
    (h7 : s + dur ≤ combine (dateOf s) sched.day_end) :
    create_appointment db p ⟨s, ce, svc⟩ now =
      (if blockConflictAny db p (dateOf s) s (s + dur) then
        .error ⟨409, "Appointment overlaps a block"⟩
      else if (apptsInWindow db p (combine (dateOf s) sched.day_start)
          (combine (dateOf s) sched.day_end)).any (apptOverlapCheck dur s) then
        .error ⟨409, "Appointment overlaps an existing appointment"⟩
      else if hasSameStart db p s then
        .error ⟨409, "Appointment already exists for that start time"⟩
      else
        .ok (⟨nextApptId db, s, ce, p, svc, "booked"⟩,
             { db with appointments :=
                db.appointments ++ [⟨nextApptId db, s, ce, p, svc, "booked"⟩] })) := by
  have h3' : ¬ (s < now) := by omega
  have h6' : ¬ (s < combine (dateOf s) sched.day_start) := by omega
  have h7' : ¬ (combine (dateOf s) sched.day_end < s + dur) := by omega
  unfold create_appointment
  simp only [h1, h4, slot_minutes, h2, h5, h3', h6', h7', bne_self_eq_false,
    Bool.not_true, Bool.false_eq_true, if_false, Bool.or_self,
    Bool.false_or, decide_eq_false_iff_not, not_false_eq_true, ite_false]
  simp [h3', h6', h7']

theorem client_create_ok_inv {db : DB} {p ce : String} {appt : ClientAppointmentCreate}
    {now : Nat} {na : Appointment} {db' : DB}
    (h : client_create_appointment db p ce appt now = .ok (na, db')) :
    ∃ dur sched,
      serviceMinutes appt.service = some dur ∧
      findSchedule db p = some sched ∧
      (apptsInWindow db p (combine (dateOf appt.starts_at) sched.day_start)
          (combine (dateOf appt.starts_at) sched.day_end)).any
        (apptOverlapCheck dur appt.starts_at) = false ∧
      hasSameStart db p appt.starts_at = false ∧
      na = ⟨nextApptId db, appt.starts_at, ce, p, appt.service, "booked"⟩ ∧
      db' = { db with appointments := db.appointments ++ [na] } := by
  unfold client_create_appointment at h
  dsimp only at h
  split at h
  · simp at h
  · rename_i dur hsm
    split at h
    · simp at h
    · split at h
      · simp at h
      · split at h
        · simp at h
        · rename_i sched hfs
          split at h
          · simp at h
          · split at h
            · simp at h
            · split at h
              · simp at h
              · split at h
                · simp at h
                · split at h
                  · simp at h
                  · rename_i happt huniq
                    simp only [Except.ok.injEq, Prod.mk.injEq] at h
                    obtain ⟨hna, hdb⟩ := h
                    refine ⟨dur, sched, hsm, hfs, by simpa using happt,
                      by simpa using huniq, hna.symm, ?_⟩
                    rw [← hdb, hna]

theorem create_ok_inv {db : DB} {p : String} {appt : AppointmentCreate}
    {now : Nat} {na : Appointment} {db' : DB}
    (h : create_appointment db p appt now = .ok (na, db')) :
    ∃ dur sched,
      serviceMinutes appt.service = some dur ∧
      findSchedule db p = some sched ∧
      (apptsInWindow db p (combine (dateOf appt.starts_at) sched.day_start)
          (combine (dateOf appt.starts_at) sched.day_end)).any
        (apptOverlapCheck dur appt.starts_at) = false ∧
      hasSameStart db p appt.starts_at = false ∧
      na = ⟨nextApptId db, appt.starts_at, appt.client_email, p, appt.service, "booked"⟩ ∧
      db' = { db with appointments := db.appointments ++ [na] } := by
  unfold create_appointment at h
  dsimp only at h
  split at h
  · simp at h
  · rename_i dur hsm
    split at h
    · simp at h
    · split at h
      · simp at h
      · split at h
        · simp at h
        · rename_i sched hfs
          split at h
          · simp at h
          · split at h
            · simp at h
            · split at h
              · simp at h
              · split at h
                · simp at h
                · split at h
                  · simp at h
                  · rename_i happt huniq
                    simp only [Except.ok.injEq, Prod.mk.injEq] at h
                    obtain ⟨hna, hdb⟩ := h
                    refine ⟨dur, sched, hsm, hfs, by simpa using happt,
                      by simpa using huniq, hna.symm, ?_⟩
                    rw [← hdb, hna]

/-! ## Invariant lemmas -/

theorem overlaps_comm (a b c d : Nat) : overlaps a b c d = overlaps c d a b := by
  simp only [overlaps, Bool.and_comm]

theorem noDoubleBooking_append (l : List Appointment) (x : Appointment) :
    noDoubleBooking (l ++ [x]) = true ↔
      (noDoubleBooking l = true ∧ ∀ a ∈ l, noConflict a x = true) := by
  induction l with
  | nil => simp [noDoubleBooking]
  | cons a t ih =>
      simp only [List.cons_append, noDoubleBooking, Bool.and_eq_true, ih,
        List.all_eq_true, List.mem_append, List.mem_cons, List.mem_singleton]
      aesop

theorem insert_preserves_noDoubleBooking {db : DB} {p svc : String} {s dur : Nat}
    {sched : BarberSchedule} {na : Appointment}
    (hsm : serviceMinutes svc = some dur)
    (hna : na.starts_at = s ∧ na.service = svc ∧ na.barber_email = p ∧ na.status = "booked")
    (hany : (apptsInWindow db p (combine (dateOf s) sched.day_start)
        (combine (dateOf s) sched.day_end)).any (apptOverlapCheck dur s) = false)
    (hconf : ∀ a ∈ db.appointments, a.barber_email = p → a.status = "booked" →
      ∀ d, serviceMinutes a.service = some d →
      overlaps s (s + dur) a.starts_at (a.starts_at + d) = true →
      combine (dateOf s) sched.day_start ≤ a.starts_at ∧
        a.starts_at < combine (dateOf s) sched.day_end)
    (hinv : noDoubleBooking db.appointments = true) :
    noDoubleBooking (db.appointments ++ [na]) = true := by
  obtain ⟨hst, hsv, hbe, hok⟩ := hna
  rw [noDoubleBooking_append]
  refine ⟨hinv, fun a ha => ?_⟩
  unfold noConflict
  rw [Bool.not_eq_true']
  cases hda : serviceMinutes a.service with
  | none => simp [hda, hsv, hsm]
  | some da =>
      rw [hst, hsv, hbe, hok, hsm]
      by_cases h1 : a.barber_email = p
      · by_cases h2 : a.status = "booked"
        · by_cases h3 : overlaps a.starts_at (a.starts_at + da) s (s + dur) = true
          · exfalso
            have hov : overlaps s (s + dur) a.starts_at (a.starts_at + da) = true := by
              rw [overlaps_comm]; exact h3
            obtain ⟨hlo, hhi⟩ := hconf a ha h1 h2 da hda hov
            have hmem : a ∈ apptsInWindow db p (combine (dateOf s) sched.day_start)
                (combine (dateOf s) sched.day_end) := by
              refine List.mem_filter.mpr ⟨ha, ?_⟩
              simp [h1, hlo, hhi]
            have hchk : apptOverlapCheck dur s a = true := by
              unfold apptOverlapCheck
              rw [hda]
              simp [h2, hov]
            have : (apptsInWindow db p (combine (dateOf s) sched.day_start)
                (combine (dateOf s) sched.day_end)).any (apptOverlapCheck dur s) = true :=
              List.any_eq_true.mpr ⟨a, hmem, hchk⟩
            rw [hany] at this
            exact Bool.false_ne_true this
          · simp only [Bool.not_eq_true] at h3
            simp [h3]
        · simp [h2]
      · simp [h1]

/-! ## C1: per-provider no-double-booking invariant -/

/-- C1 (counterexample): the claimed invariant fails on a state reached by the
public operations alone.  Booking haircut (30 min) at Monday 09:00 under a
09:00-18:00 schedule, then narrowing the schedule to 09:15-18:00 via the
schedule upsert, lets a shape_up booking at Monday 09:15 pass every check
(the double-booking query only scans starts_at within the CURRENT working
window, so the 09:00 row is not examined), leaving two booked appointments
with overlapping intervals [540,570) and [555,570). -/
theorem c1_reachable_overlap_cex :
    create_schedule ⟨[], [], []⟩ "b" ⟨[0], 540, 1080⟩ =
      .ok (⟨"b", [0], 540, 1080⟩, ⟨[], [⟨"b", [0], 540, 1080⟩], []⟩) ∧
    create_appointment ⟨[], [⟨"b", [0], 540, 1080⟩], []⟩ "b" ⟨540, "c", "haircut"⟩ 0 =
      .ok (⟨1, 540, "c", "b", "haircut", "booked"⟩,
           ⟨[⟨1, 540, "c", "b", "haircut", "booked"⟩], [⟨"b", [0], 540, 1080⟩], []⟩) ∧
    create_schedule ⟨[⟨1, 540, "c", "b", "haircut", "booked"⟩], [⟨"b", [0], 540, 1080⟩], []⟩
        "b" ⟨[0], 555, 1080⟩ =
      .ok (⟨"b", [0], 555, 1080⟩,
           ⟨[⟨1, 540, "c", "b", "haircut", "booked"⟩], [⟨"b", [0], 555, 1080⟩], []⟩) ∧
    create_appointment ⟨[⟨1, 540, "c", "b", "haircut", "booked"⟩], [⟨"b", [0], 555, 1080⟩], []⟩
        "b" ⟨555, "c", "shape_up"⟩ 0 =
      .ok (⟨2, 555, "c", "b", "shape_up", "booked"⟩,
           ⟨[⟨1, 540, "c", "b", "haircut", "booked"⟩, ⟨2, 555, "c", "b", "shape_up", "booked"⟩],
            [⟨"b", [0], 555, 1080⟩], []⟩) ∧
    noDoubleBooking
      [⟨1, 540, "c", "b", "haircut", "booked"⟩, ⟨2, 555, "c", "b", "shape_up", "booked"⟩] = false := by
  refine ⟨?_, ?_, ?_, ?_, ?_⟩ <;> rfl

/-- C1 (amended): each store-backed booking operation preserves the
per-provider no-overlap invariant over booked appointments, provided every
existing booked appointment of the provider whose interval would conflict
with the new one starts inside the provider's CURRENT working window for the
requested date (the overlap query only scans that window, so bookings that a
later schedule change left outside it are invisible to the check). -/
theorem booking_preserves_noDoubleBooking :
    (∀ (db : DB) (p : String) (appt : AppointmentCreate) (now : Nat)
       (na : Appointment) (db' : DB) (sched : BarberSchedule),
       findSchedule db p = some sched →
       (∀ a ∈ db.appointments, a.barber_email = p → a.status = "booked" →
         ∀ d dur, serviceMinutes a.service = some d →
         serviceMinutes appt.service = some dur →
         overlaps appt.starts_at (appt.starts_at + dur) a.starts_at (a.starts_at + d) = true →
         combine (dateOf appt.starts_at) sched.day_start ≤ a.starts_at ∧
           a.starts_at < combine (dateOf appt.starts_at) sched.day_end) →
       create_appointment db p appt now = .ok (na, db') →
       noDoubleBooking db.appointments = true →
       noDoubleBooking db'.appointments = true) ∧
    (∀ (db : DB) (p ce : String) (appt : ClientAppointmentCreate) (now : Nat)
       (na : Appointment) (db' : DB) (sched : BarberSchedule),
       findSchedule db p = some sched →
       (∀ a ∈ db.appointments, a.barber_email = p → a.status = "booked" →
         ∀ d dur, serviceMinutes a.service = some d →
         serviceMinutes appt.service = some dur →
         overlaps appt.starts_at (appt.starts_at + dur) a.starts_at (a.starts_at + d) = true →
         combine (dateOf appt.starts_at) sched.day_start ≤ a.starts_at ∧
           a.starts_at < combine (dateOf appt.starts_at) sched.day_end) →
       client_create_appointment db p ce appt now = .ok (na, db') →
       noDoubleBooking db.appointments = true →
       noDoubleBooking db'.appointments = true) := by
  constructor
  · intro db p appt now na db' sched hfs hconf h hinv
    obtain ⟨dur, sched', hsm, hfs', hany, huniq, hna, hdb'⟩ := create_ok_inv h
    have hse : sched' = sched := by
      rw [hfs] at hfs'; exact ((Option.some.injEq _ _).mp hfs').symm
    subst hse
    subst hna
    rw [hdb']
    exact insert_preserves_noDoubleBooking hsm ⟨rfl, rfl, rfl, rfl⟩ hany
      (fun a ha h1 h2 d hd hov => hconf a ha h1 h2 d dur hd hsm hov) hinv
  · intro db p ce appt now na db' sched hfs hconf h hinv
    obtain ⟨dur, sched', hsm, hfs', hany, huniq, hna, hdb'⟩ := client_create_ok_inv h
    have hse : sched' = sched := by
      rw [hfs] at hfs'; exact ((Option.some.injEq _ _).mp hfs').symm
    subst hse
    subst hna
    rw [hdb']
    exact insert_preserves_noDoubleBooking hsm ⟨rfl, rfl, rfl, rfl⟩ hany
      (fun a ha h1 h2 d hd hov => hconf a ha h1 h2 d dur hd hsm hov) hinv

/-- C1 witness: the amended preservation theorem applied to a concrete state
(empty ledger, Monday 09:00-18:00 schedule) and a successful haircut booking
at Monday 09:00. -/
theorem booking_preserves_noDoubleBooking_witness :
    findSchedule ⟨[], [⟨"b", [0], 540, 1080⟩], []⟩ "b" = some ⟨"b", [0], 540, 1080⟩ ∧
    create_appointment ⟨[], [⟨"b", [0], 540, 1080⟩], []⟩ "b" ⟨540, "c", "haircut"⟩ 0 =
      .ok (⟨1, 540, "c", "b", "haircut", "booked"⟩,
           ⟨[⟨1, 540, "c", "b", "haircut", "booked"⟩], [⟨"b", [0], 540, 1080⟩], []⟩) ∧
    noDoubleBooking [⟨1, 540, "c", "b", "haircut", "booked"⟩] = true := by
  refine ⟨rfl, rfl, ?_⟩
  exact booking_preserves_noDoubleBooking.1
    ⟨[], [⟨"b", [0], 540, 1080⟩], []⟩ "b" ⟨540, "c", "haircut"⟩ 0
    ⟨1, 540, "c", "b", "haircut", "booked"⟩
    ⟨[⟨1, 540, "c", "b", "haircut", "booked"⟩], [⟨"b", [0], 540, 1080⟩], []⟩
    ⟨"b", [0], 540, 1080⟩ rfl (by simp) rfl rfl

/-! ## C6: storage uniqueness constraint and its DoubleBooked mapping -/

/-- C6: with every pre-commit validation passing, the provider-create booking
commits successfully exactly when no existing appointment row (of any status)
shares (barber_email, starts_at); when one does, the insert violates the
uq_barber_start unique constraint and the route reports the deterministic 409
DoubleBooked error instead of a raw storage error.  In this embedding an
erroring route returns no state, modelling the full rollback: no partial
appointment is persisted. -/
theorem uq_constraint_maps_to_double_booked :
    ∀ (db : DB) (p ce svc : String) (s now dur : Nat) (sched : BarberSchedule),
      serviceMinutes svc = some dur →
      minuteOfHour s % 15 = 0 →
      now ≤ s →
      findSchedule db p = some sched →
      sched.working_days.contains (weekday (dateOf s)) = true →
      combine (dateOf s) sched.day_start ≤ s →
      s + dur ≤ combine (dateOf s) sched.day_end →
      blockConflictAny db p (dateOf s) s (s + dur) = false →
      (apptsInWindow db p (combine (dateOf s) sched.day_start)
          (combine (dateOf s) sched.day_end)).any (apptOverlapCheck dur s) = false →
      ((hasSameStart db p s = true →
          create_appointment db p ⟨s, ce, svc⟩ now =
            .error ⟨409, "Appointment already exists for that start time"⟩) ∧
       (hasSameStart db p s = false →
          create_appointment db p ⟨s, ce, svc⟩ now =
            .ok (⟨nextApptId db, s, ce, p, svc, "booked"⟩,
                 { db with appointments :=
                    db.appointments ++ [⟨nextApptId db, s, ce, p, svc, "booked"⟩] }))) := by
  intro db p ce svc s now dur sched h1 h2 h3 h4 h5 h6 h7 h8 h9
  rw [create_eval db p ce svc s now dur sched h1 h2 h3 h4 h5 h6 h7]
  rw [h8, h9]
  constructor
  · intro hu; simp [hu]
  · intro hu; simp [hu]

/-- C6 witness: a canceled appointment holds (b6, 09:00); a fully valid
haircut request at 09:00 passes validation but hits the unique constraint
and reports the DoubleBooked 409. -/
theorem uq_constraint_maps_to_double_booked_witness :
    serviceMinutes "haircut" = some 30 ∧
    findSchedule ⟨[⟨1, 540, "x", "b6", "haircut", "canceled"⟩], [⟨"b6", [0], 540, 1080⟩], []⟩
      "b6" = some ⟨"b6", [0], 540, 1080⟩ ∧
    hasSameStart ⟨[⟨1, 540, "x", "b6", "haircut", "canceled"⟩], [⟨"b6", [0], 540, 1080⟩], []⟩
      "b6" 540 = true ∧
    create_appointment ⟨[⟨1, 540, "x", "b6", "haircut", "canceled"⟩], [⟨"b6", [0], 540, 1080⟩], []⟩
      "b6" ⟨540, "y", "haircut"⟩ 0 =
      .error ⟨409, "Appointment already exists for that start time"⟩ := by
  refine ⟨rfl, rfl, rfl, ?_⟩
  exact (uq_constraint_maps_to_double_booked
    ⟨[⟨1, 540, "x", "b6", "haircut", "canceled"⟩], [⟨"b6", [0], 540, 1080⟩], []⟩
    "b6" "y" "haircut" 540 0 30 ⟨"b6", [0], 540, 1080⟩
    rfl (by decide) (by decide) rfl (by decide) (by decide) (by decide)
    (by decide) (by decide)).1 (by decide)

/-! ## C10: canceled appointments still occupy their exact start instant -/

/-- C10: the uq_barber_start constraint ignores status.  If a canceled
appointment of provider p starts at instant s, then an otherwise fully valid
client booking for p at exactly s (it passes every pre-commit check, the
overlap loop having skipped the canceled row) fails the insert with the 409
DoubleBooked error: the exact former start instant can never be rebooked. -/
theorem canceled_start_never_rebookable :
    ∀ (db : DB) (p ce svc : String) (s now dur : Nat) (sched : BarberSchedule)
      (a : Appointment),
      a ∈ db.appointments → a.barber_email = p → a.starts_at = s →
      a.status = "canceled" →
      serviceMinutes svc = some dur →
      minuteOfHour s % 15 = 0 →
      now ≤ s →
      findSchedule db p = some sched →
      sched.working_days.contains (weekday (dateOf s)) = true →
      combine (dateOf s) sched.day_start ≤ s →
      s + dur ≤ combine (dateOf s) sched.day_end →
      blockConflictAny db p (dateOf s) s (s + dur) = false →
      (apptsInWindow db p (combine (dateOf s) sched.day_start)
          (combine (dateOf s) sched.day_end)).any (apptOverlapCheck dur s) = false →
      client_create_appointment db p ce ⟨s, svc⟩ now =
        .error ⟨409, "Appointment already exists for that start time"⟩ := by
  intro db p ce svc s now dur sched a ha hab has _hst h1 h2 h3 h4 h5 h6 h7 h8 h9
  have huniq : hasSameStart db p s = true := by
    refine List.any_eq_true.mpr ⟨a, ha, ?_⟩
    simp [hab, has]
  rw [client_create_eval db p ce svc s now dur sched h1 h2 h3 h4 h5 h6 h7]
  rw [h8, h9, huniq]
  simp

/-- C10 witness: canceled fade at (b10, Monday 09:30); a valid shape_up
client booking at 09:30 is rejected with the uniqueness-mapped 409. -/
theorem canceled_start_never_rebookable_witness :
    (⟨7, 570, "u", "b10", "fade", "canceled"⟩ : Appointment).status = "canceled" ∧
    serviceMinutes "shape_up" = some 15 ∧
    client_create_appointment
      ⟨[⟨7, 570, "u", "b10", "fade", "canceled"⟩], [⟨"b10", [0], 540, 1080⟩], []⟩
      "b10" "v" ⟨570, "shape_up"⟩ 60 =
      .error ⟨409, "Appointment already exists for that start time"⟩ := by
  refine ⟨rfl, rfl, ?_⟩
  exact canceled_start_never_rebookable
    ⟨[⟨7, 570, "u", "b10", "fade", "canceled"⟩], [⟨"b10", [0], 540, 1080⟩], []⟩
    "b10" "v" "shape_up" 570 60 15 ⟨"b10", [0], 540, 1080⟩
    ⟨7, 570, "u", "b10", "fade", "canceled"⟩
    (by decide) rfl rfl rfl rfl (by decide) (by decide) rfl (by decide)
    (by decide) (by decide) (by decide) (by decide)

/-! ## C3: validation order of the booking pipelines -/

/-- The ordered validation sequence of the store-backed booking routes, as a
list of (failing?, error) pairs; `schedErr` is 409 ScheduleRequired for the
provider caller and 404 ProviderNotFound for the client caller. -/
def bookingChecks (db : DB) (p : String) (s : Nat) (svc : String) (now : Nat)
    (schedErr : HTTPError) : List (Bool × HTTPError) :=
  let sched := (findSchedule db p).getD ⟨p, [], 0, 0⟩
  let dur := (serviceMinutes svc).getD 0
  let ws := combine (dateOf s) sched.day_start
  let we := combine (dateOf s) sched.day_end
  [((serviceMinutes svc).isNone, ⟨422, "Service not available"⟩),
   (minuteOfHour s % slot_minutes != 0, ⟨422, "Start time must be in 15-minute increments"⟩),
   (decide (s < now), ⟨422, "Cannot book an appointment in the past"⟩),
   ((findSchedule db p).isNone, schedErr),
   (!(sched.working_days.contains (weekday (dateOf s))),
     ⟨422, "Barber is not scheduled to work that day"⟩),
   (decide (s < ws) || decide (we < s + dur),
     ⟨422, "Appointment must be within working hours"⟩),
   (blockConflictAny db p (dateOf s) s (s + dur), ⟨409, "Appointment overlaps a block"⟩),
   ((apptsInWindow db p ws we).any (apptOverlapCheck dur s),
     ⟨409, "Appointment overlaps an existing appointment"⟩),
   (hasSameStart db p s, ⟨409, "Appointment already exists for that start time"⟩)]

/-- The ordered validation sequence of the legacy in-memory booking routes:
same order, but with no past-instant entry and no storage uniqueness entry,
and with the date-scoped status-blind overlap condition. -/
def memBookingChecks (db : DB) (p : String) (s : Nat) (svc : String)
    (schedErr : HTTPError) : List (Bool × HTTPError) :=
  let sched := (findSchedule db p).getD ⟨p, [], 0, 0⟩
  let dur := (serviceMinutes svc).getD 0
  let ws := combine (dateOf s) sched.day_start
  let we := combine (dateOf s) sched.day_end
  [((serviceMinutes svc).isNone, ⟨422, "Service not available"⟩),
   (minuteOfHour s % slot_minutes != 0, ⟨422, "Start time must be in 15-minute increments"⟩),
   ((findSchedule db p).isNone, schedErr),
   (!(sched.working_days.contains (weekday (dateOf s))),
     ⟨422, "Barber is not scheduled to work that day"⟩),
   (decide (s < ws) || decide (we < s + dur),
     ⟨422, "Appointment must be within working hours"⟩),
   (blockConflictAny db p (dateOf s) s (s + dur), ⟨409, "Appointment overlaps a block"⟩),
   (db.appointments.any (fun a => a.barber_email == p && memApptConflict dur s (dateOf s) a),
     ⟨409, "Appointment overlaps an existing appointment"⟩)]

/-- C3 (amended): the store-backed provider- and client-create operations
short-circuit on the first failing check in exactly the order UnknownService,
InvalidAlignment, PastBooking, missing-schedule (409 for the provider caller,
404 for the client caller), NotWorkingDay, OutOfWorkingHours, BlockConflict,
DoubleBooked (overlap), DoubleBooked (uniqueness); the legacy in-memory
operations short-circuit in the same order but have no past-instant check at
all and no uniqueness step. -/
theorem resultError_create_appointment (db : DB) (p : String)
    (appt : AppointmentCreate) (now : Nat) :
    resultError (create_appointment db p appt now) =
      firstFailure (bookingChecks db p appt.starts_at appt.service now
        ⟨409, "Weekly schedule must be set before creating appointments"⟩) := by
  unfold create_appointment
  dsimp only
  repeat' split
  all_goals simp_all [resultError, firstFailure, bookingChecks]

theorem resultError_client_create_appointment (db : DB) (p ce : String)
    (appt : ClientAppointmentCreate) (now : Nat) :
    resultError (client_create_appointment db p ce appt now) =
      firstFailure (bookingChecks db p appt.starts_at appt.service now
        ⟨404, "Barber Not Found"⟩) := by
  unfold client_create_appointment
  dsimp only
  repeat' split
  all_goals simp_all [resultError, firstFailure, bookingChecks]

theorem resultError_mem_create_appointment (db : DB) (p : String)
    (appt : AppointmentCreate) :
    resultError (mem_create_appointment db p appt) =
      firstFailure (memBookingChecks db p appt.starts_at appt.service
        ⟨409, "Weekly schedule must be set before creating appointments"⟩) := by
  unfold mem_create_appointment
  dsimp only
  repeat' split
  all_goals simp_all [resultError, firstFailure, memBookingChecks]

theorem resultError_mem_client_create_appointment (db : DB) (p ce : String)
    (appt : ClientAppointmentCreate) :
    resultError (mem_client_create_appointment db p ce appt) =
      firstFailure (memBookingChecks db p appt.starts_at appt.service
        ⟨404, "Barber Not Found"⟩) := by
  unfold mem_client_create_appointment
  dsimp only
  repeat' split
  all_goals simp_all [resultError, firstFailure, memBookingChecks]

theorem booking_validation_order :
    (∀ (db : DB) (p : String) (appt : AppointmentCreate) (now : Nat),
      resultError (create_appointment db p appt now) =
        firstFailure (bookingChecks db p appt.starts_at appt.service now
          ⟨409, "Weekly schedule must be set before creating appointments"⟩)) ∧
    (∀ (db : DB) (p ce : String) (appt : ClientAppointmentCreate) (now : Nat),
      resultError (client_create_appointment db p ce appt now) =
        firstFailure (bookingChecks db p appt.starts_at appt.service now
          ⟨404, "Barber Not Found"⟩)) ∧
    (∀ (db : DB) (p : String) (appt : AppointmentCreate),
      resultError (mem_create_appointment db p appt) =
        firstFailure (memBookingChecks db p appt.starts_at appt.service
          ⟨409, "Weekly schedule must be set before creating appointments"⟩)) ∧
    (∀ (db : DB) (p ce : String) (appt : ClientAppointmentCreate),
      resultError (mem_client_create_appointment db p ce appt) =
        firstFailure (memBookingChecks db p appt.starts_at appt.service
          ⟨404, "Barber Not Found"⟩)) := by
  exact ⟨resultError_create_appointment, resultError_client_create_appointment,
    resultError_mem_create_appointment, resultError_mem_client_create_appointment⟩

/-- C3 (counterexample): the legacy in-memory provider-create route consults
no clock, so a booking whose start (Monday 09:00 of the epoch week, instant
540) lies strictly before any later current instant is accepted rather than
rejected with the 422 PastBooking error the claim requires on every booking
path. -/
theorem mem_booking_ignores_past_cex :
    mem_create_appointment ⟨[], [⟨"b", [0], 540, 1080⟩], []⟩ "b" ⟨540, "c", "haircut"⟩ =
      .ok (⟨1, 540, "c", "b", "haircut", "booked"⟩,
           ⟨[⟨1, 540, "c", "b", "haircut", "booked"⟩], [⟨"b", [0], 540, 1080⟩], []⟩) ∧
    resultError (mem_create_appointment ⟨[], [⟨"b", [0], 540, 1080⟩], []⟩ "b"
        ⟨540, "c", "haircut"⟩) ≠
      some ⟨422, "Cannot book an appointment in the past"⟩ := by
  exact ⟨rfl, by decide⟩

/-! ## C9: addBlock precondition order and persisted interval -/

/-- The ordered precondition sequence of the store-backed addBlock route. -/
def blockChecks (db : DB) (email : String) (block : BlockCreate) :
    List (Bool × HTTPError) :=
  let sched := (findSchedule db email).getD ⟨email, [], 0, 0⟩
  let ws := combine block.date sched.day_start
  let we := combine block.date sched.day_end
  let bs := match block.kind with
    | .lunch_break => combine block.date block.start_time
    | .day_off => combine block.date sched.day_start
  let be := match block.kind with
    | .lunch_break => combine block.date block.start_time + 30
    | .day_off => combine block.date sched.day_end
  [((findSchedule db email).isNone, ⟨409, "Weekly schedule must be set before adding blocks"⟩),
   (!(sched.working_days.contains (weekday block.date)), ⟨422, "Not scheduled to work that day"⟩),
   (minuteOfHour block.start_time % 15 != 0, ⟨422, "Time must be in increaments of 15"⟩),
   (decide (bs < ws) || decide (we < be), ⟨422, "Block must be within working hours"⟩),
   ((blocksForDay db email block.date).any (fun eb =>
       decide (bs < eb.end_) && decide (eb.start < be)), ⟨409, "Block overlaps existing block"⟩)]

/-- C9: addBlock checks its preconditions short-circuiting in exactly the
order ScheduleRequired, NotWorkingDay, InvalidAlignment, OutOfWorkingHours,
BlockConflict; on success it appends a block whose interval is
[combine(date, start_time), +30min) for lunch_break and exactly the full
working window of that date for day_off (the caller start_time is ignored
there), and that block overlaps no block previously stored for this
provider and date. -/
theorem addBlock_spec :
    (∀ (db : DB) (email : String) (block : BlockCreate),
      resultError (barber_block db email block) =
        firstFailure (blockChecks db email block)) ∧
    (∀ (db : DB) (email : String) (block : BlockCreate) (b : BarberBlock) (db' : DB),
      barber_block db email block = .ok (b, db') →
      b.barber_email = email ∧ b.date = block.date ∧ b.kind = block.kind.value ∧
      (block.kind = .lunch_break →
        b.start = combine block.date block.start_time ∧
        b.end_ = combine block.date block.start_time + 30) ∧
      (∀ sched, findSchedule db email = some sched → block.kind = .day_off →
        b.start = combine block.date sched.day_start ∧
        b.end_ = combine block.date sched.day_end) ∧
      db'.blocks = db.blocks ++ [b] ∧
      (∀ eb ∈ db.blocks, eb.barber_email = email → eb.date = block.date →
        overlaps b.start b.end_ eb.start eb.end_ = false)) := by
  constructor
  · intro db email block
    unfold barber_block
    dsimp only
    repeat' split
    all_goals simp_all [resultError, firstFailure, blockChecks]
  · intro db email block b db' h
    obtain ⟨bdate, bst, bkind⟩ := block
    unfold barber_block at h
    dsimp only at h
    split at h
    · simp at h
    · rename_i sched hfs
      split at h
      · simp at h
      · split at h
        · simp at h
        · split at h
          · simp at h
          · split at h
            · simp at h
            · rename_i hday halign hwin hconf
              simp only [Except.ok.injEq, Prod.mk.injEq] at h
              obtain ⟨hb, hdb⟩ := h
              subst hb
              rw [Bool.not_eq_true, List.any_eq_false] at hconf
              cases bkind with
              | lunch_break =>
                  refine ⟨rfl, rfl, rfl, fun _ => ⟨rfl, rfl⟩,
                    fun sched2 _ hk => BlockKind.noConfusion hk, by rw [← hdb], ?_⟩
                  intro eb hmem hbe hbd
                  have hebmem : eb ∈ blocksForDay db email bdate :=
                    List.mem_filter.mpr ⟨hmem, by simp [hbe, hbd]⟩
                  have h2 := hconf eb hebmem
                  rw [Bool.not_eq_true] at h2
                  simpa [overlaps] using h2
              | day_off =>
                  refine ⟨rfl, rfl, rfl, fun hk => BlockKind.noConfusion hk,
                    ?_, by rw [← hdb], ?_⟩
                  · intro sched2 hfs2 _
                    have : sched2 = sched := by
                      rw [hfs] at hfs2
                      exact ((Option.some.injEq _ _).mp hfs2).symm
                    subst this
                    exact ⟨rfl, rfl⟩
                  · intro eb hmem hbe hbd
                    have hebmem : eb ∈ blocksForDay db email bdate :=
                      List.mem_filter.mpr ⟨hmem, by simp [hbe, hbd]⟩
                    have h2 := hconf eb hebmem
                    rw [Bool.not_eq_true] at h2
                    simpa [overlaps] using h2

/-- C9 witness: on a Monday 09:00-18:00 schedule, a lunch_break block at
12:00 persists as [12:00, 12:30), and a day_off block on an otherwise
identical state persists as the full window [09:00, 18:00) even though the
caller supplied 12:00 as its start_time. -/
theorem addBlock_spec_witness :
    barber_block ⟨[], [⟨"b9", [0], 540, 1080⟩], []⟩ "b9" ⟨0, 720, .lunch_break⟩ =
      .ok (⟨1, "b9", 0, 720, 750, "lunch_break"⟩,
           ⟨[], [⟨"b9", [0], 540, 1080⟩], [⟨1, "b9", 0, 720, 750, "lunch_break"⟩]⟩) ∧
    (⟨1, "b9", 0, 720, 750, "lunch_break"⟩ : BarberBlock).start = combine 0 720 ∧
    (⟨1, "b9", 0, 720, 750, "lunch_break"⟩ : BarberBlock).end_ = combine 0 720 + 30 ∧
    barber_block ⟨[], [⟨"b9", [0], 540, 1080⟩], []⟩ "b9" ⟨0, 720, .day_off⟩ =
      .ok (⟨1, "b9", 0, 540, 1080, "day_off"⟩,
           ⟨[], [⟨"b9", [0], 540, 1080⟩], [⟨1, "b9", 0, 540, 1080, "day_off"⟩]⟩) ∧
    (⟨1, "b9", 0, 540, 1080, "day_off"⟩ : BarberBlock).start = combine 0 540 ∧
    (⟨1, "b9", 0, 540, 1080, "day_off"⟩ : BarberBlock).end_ = combine 0 1080 ∧
    resultError (barber_block ⟨[], [], []⟩ "b9" ⟨0, 720, .lunch_break⟩) =
      firstFailure (blockChecks ⟨[], [], []⟩ "b9" ⟨0, 720, .lunch_break⟩) := by
  have hlb := (addBlock_spec.2 ⟨[], [⟨"b9", [0], 540, 1080⟩], []⟩ "b9" ⟨0, 720, .lunch_break⟩
    ⟨1, "b9", 0, 720, 750, "lunch_break"⟩
    ⟨[], [⟨"b9", [0], 540, 1080⟩], [⟨1, "b9", 0, 720, 750, "lunch_break"⟩]⟩ rfl)
  have hdo := (addBlock_spec.2 ⟨[], [⟨"b9", [0], 540, 1080⟩], []⟩ "b9" ⟨0, 720, .day_off⟩
    ⟨1, "b9", 0, 540, 1080, "day_off"⟩
    ⟨[], [⟨"b9", [0], 540, 1080⟩], [⟨1, "b9", 0, 540, 1080, "day_off"⟩]⟩ rfl)
  refine ⟨rfl, (hlb.2.2.2.1 rfl).1, (hlb.2.2.2.1 rfl).2, rfl,
    (hdo.2.2.2.2.1 ⟨"b9", [0], 540, 1080⟩ rfl rfl).1,
    (hdo.2.2.2.2.1 ⟨"b9", [0], 540, 1080⟩ rfl rfl).2,
    addBlock_spec.1 ⟨[], [], []⟩ "b9" ⟨0, 720, .lunch_break⟩⟩

/-! ## C8: schedule upsert semantics -/

theorem findSchedule_map_replace (l : List BarberSchedule) (email : String)
    (row : BarberSchedule) (hrow : (row.barber_email == email) = true)
    (sched : BarberSchedule)
    (h : l.find? (fun s => s.barber_email == email) = some sched) :
    (l.map (fun t => if t.barber_email == email then row else t)).find?
      (fun s => s.barber_email == email) = some row := by
  induction l with
  | nil => simp at h
  | cons a t ih =>
      by_cases ha : (a.barber_email == email) = true
      · rw [List.map_cons, if_pos ha]
        exact List.find?_cons_of_pos _ hrow
      · have ha' : (a.barber_email == email) = false := by
          rwa [Bool.not_eq_true] at ha
        simp only [List.find?_cons, ha'] at h
        simp only [List.map_cons, if_neg ha]
        simp only [List.find?_cons, ha']
        exact ih h

theorem countP_map_replace (l : List BarberSchedule) (email : String)
    (row : BarberSchedule) (hrow : (row.barber_email == email) = true) :
    (l.map (fun t => if t.barber_email == email then row else t)).countP
      (fun t => t.barber_email == email) =
      l.countP (fun t => t.barber_email == email) := by
  induction l with
  | nil => simp
  | cons a t ih =>
      by_cases ha : (a.barber_email == email) = true
      · simp only [List.map_cons, if_pos ha, List.countP_cons]
        rw [ih]
        simp [hrow, ha]
      · have ha' : (a.barber_email == email) = false := by
          rwa [Bool.not_eq_true] at ha
        simp only [List.map_cons, if_neg ha, List.countP_cons]
        rw [ih]

/-- C8 (counterexample): the legacy in-memory schedule upsert appends a new
record on every call, so a second upsert for the same provider leaves two
records in the store and the first-match lookup keeps returning the
original (stale) values, not the newly supplied ones. -/
theorem mem_schedule_upsert_accumulates_cex :
    mem_create_schedule ⟨[], [], []⟩ "b" ⟨[0], 540, 1080⟩ =
      .ok (⟨"b", [0], 540, 1080⟩, ⟨[], [⟨"b", [0], 540, 1080⟩], []⟩) ∧
    mem_create_schedule ⟨[], [⟨"b", [0], 540, 1080⟩], []⟩ "b" ⟨[0, 1], 600, 1020⟩ =
      .ok (⟨"b", [0, 1], 600, 1020⟩,
           ⟨[], [⟨"b", [0], 540, 1080⟩, ⟨"b", [0, 1], 600, 1020⟩], []⟩) ∧
    findSchedule ⟨[], [⟨"b", [0], 540, 1080⟩, ⟨"b", [0, 1], 600, 1020⟩], []⟩ "b" =
      some ⟨"b", [0], 540, 1080⟩ ∧
    (⟨"b", [0], 540, 1080⟩ : BarberSchedule) ≠ ⟨"b", [0, 1], 600, 1020⟩ ∧
    (⟨[], [⟨"b", [0], 540, 1080⟩, ⟨"b", [0, 1], 600, 1020⟩], []⟩ : DB).schedules.length = 2 := by
  exact ⟨rfl, rfl, rfl, by decide, rfl⟩

/-- C8 (amended): the store-backed schedule upsert replaces the provider's
whole record atomically: after a successful upsert the lookup returns exactly
the newly supplied values, the store holds exactly one record for that
provider (given it held at most one before, which the primary key
guarantees), other tables and other providers' records are untouched.  The
legacy in-memory upsert instead appends a record per call and first-match
lookups keep returning the original values (see the counterexample). -/
theorem schedule_upsert_replaces :
    ∀ (db : DB) (email : String) (inp : BarberScheduleIn)
      (row : BarberSchedule) (db' : DB),
      create_schedule db email inp = .ok (row, db') →
      row = ⟨email, inp.working_days, inp.day_start, inp.day_end⟩ ∧
      findSchedule db' email = some row ∧
      db'.appointments = db.appointments ∧
      db'.blocks = db.blocks ∧
      (db.schedules.countP (fun t => t.barber_email == email) ≤ 1 →
        db'.schedules.countP (fun t => t.barber_email == email) = 1) ∧
      (∀ t ∈ db'.schedules, t.barber_email ≠ email → t ∈ db.schedules) := by
  intro db email inp row db' h
  unfold create_schedule at h
  dsimp only at h
  split at h
  · simp at h
  · split at h
    · simp at h
    · split at h
      · simp at h
      · split at h
        · simp at h
        · split at h
          · rename_i hfs
            unfold findSchedule at hfs
            simp only [Except.ok.injEq, Prod.mk.injEq] at h
            obtain ⟨hrow, hdb⟩ := h
            subst hrow
            refine ⟨rfl, ?_, by rw [← hdb], by rw [← hdb], ?_, ?_⟩
            · rw [← hdb]
              unfold findSchedule
              dsimp only
              rw [List.find?_append, hfs]
              simp
            · intro _
              rw [← hdb]
              dsimp only
              rw [List.countP_append]
              have h0 : db.schedules.countP (fun t => t.barber_email == email) = 0 := by
                rw [List.countP_eq_zero]
                intro a ha
                exact (List.find?_eq_none.mp hfs) a ha
              rw [h0]
              simp [List.countP_cons]
            · intro t ht hne
              rw [← hdb] at ht
              dsimp only at ht
              rcases List.mem_append.mp ht with h1 | h1
              · exact h1
              · simp only [List.mem_singleton] at h1
                subst h1
                simp at hne
          · rename_i sched hfs
            unfold findSchedule at hfs
            simp only [Except.ok.injEq, Prod.mk.injEq] at h
            obtain ⟨hrow, hdb⟩ := h
            subst hrow
            refine ⟨rfl, ?_, by rw [← hdb], by rw [← hdb], ?_, ?_⟩
            · rw [← hdb]
              unfold findSchedule
              dsimp only
              exact findSchedule_map_replace db.schedules email _ (by simp) sched hfs
            · intro hle
              rw [← hdb]
              dsimp only
              rw [countP_map_replace db.schedules email _ (by simp)]
              have hpos : db.schedules.countP (fun t => t.barber_email == email) ≠ 0 := by
                intro h0
                rw [List.countP_eq_zero] at h0
                have hnone : db.schedules.find? (fun s => s.barber_email == email) = none :=
                  List.find?_eq_none.mpr h0
                rw [hnone] at hfs
                exact Option.noConfusion hfs
              omega
            · intro t ht hne
              rw [← hdb] at ht
              dsimp only at ht
              rcases List.mem_map.mp ht with ⟨u, hu, hut⟩
              by_cases hue : (u.barber_email == email) = true
              · rw [if_pos hue] at hut
                exfalso
                apply hne
                rw [← hut]
              · rw [if_neg hue] at hut
                rw [← hut]
                exact hu

/-- C8 witness: upserting working_days [0,1], 10:00-17:00 over an existing
record for the same provider yields exactly one schedule record holding the
new values. -/
theorem schedule_upsert_replaces_witness :
    create_schedule ⟨[], [⟨"b8", [0], 540, 1080⟩], []⟩ "b8" ⟨[0, 1], 600, 1020⟩ =
      .ok (⟨"b8", [0, 1], 600, 1020⟩, ⟨[], [⟨"b8", [0, 1], 600, 1020⟩], []⟩) ∧
    (⟨"b8", [0, 1], 600, 1020⟩ : BarberSchedule) =
      ⟨"b8", ([0, 1] : List Nat), 600, 1020⟩ ∧
    findSchedule ⟨[], [⟨"b8", [0, 1], 600, 1020⟩], []⟩ "b8" =
      some ⟨"b8", [0, 1], 600, 1020⟩ ∧
    ([⟨"b8", [0], 540, 1080⟩] : List BarberSchedule).countP
      (fun t => t.barber_email == "b8") ≤ 1 ∧
    ([⟨"b8", [0, 1], 600, 1020⟩] : List BarberSchedule).countP
      (fun t => t.barber_email == "b8") = 1 := by
  have h := schedule_upsert_replaces ⟨[], [⟨"b8", [0], 540, 1080⟩], []⟩ "b8" ⟨[0, 1], 600, 1020⟩
    ⟨"b8", [0, 1], 600, 1020⟩ ⟨[], [⟨"b8", [0, 1], 600, 1020⟩], []⟩ rfl
  exact ⟨rfl, h.1, h.2.1, by decide, h.2.2.2.2.1 (by decide)⟩

/-! ## C7: cancellation is one-way; canceled appointments and the checks -/

/-- C7 (counterexample): in the legacy in-memory booking path the overlap
loop has no status filter, so a canceled appointment still blocks its former
slot: with only a canceled haircut at Monday 10:00-10:30 on file, a shape_up
booking at 10:15 (a different start instant) is rejected as an overlap
instead of succeeding. -/
theorem mem_booking_blocked_by_canceled_cex :
    (⟨1, 600, "c", "b", "haircut", "canceled"⟩ : Appointment).status = "canceled" ∧
    (600 : Nat) ≠ 615 ∧
    mem_create_appointment
      ⟨[⟨1, 600, "c", "b", "haircut", "canceled"⟩], [⟨"b", [0], 540, 1080⟩], []⟩
      "b" ⟨615, "c2", "shape_up"⟩ =
      .error ⟨409, "Appointment overlaps an existing appointment"⟩ := by
  exact ⟨rfl, by decide, rfl⟩

theorem cancel_find_lemma (l : List Appointment) (appt_id : Nat) (t : Appointment)
    (h : l.find? (fun a => a.id == appt_id) = some t) :
    (l.map (fun a => if a.id == appt_id then { a with status := "canceled" } else a)).find?
      (fun a => a.id == appt_id) = some { t with status := "canceled" } := by
  induction l with
  | nil => simp at h
  | cons a rest ih =>
      by_cases ha : (a.id == appt_id) = true
      · simp only [List.find?_cons, ha] at h
        obtain rfl : a = t := Option.some.inj h
        rw [List.map_cons, if_pos ha]
        exact List.find?_cons_of_pos _ ha
      · have ha' : (a.id == appt_id) = false := by rwa [Bool.not_eq_true] at ha
        simp only [List.find?_cons, ha'] at h
        rw [List.map_cons, if_neg ha]
        simp only [List.find?_cons, ha']
        exact ih h

theorem slotTaken_cons_nonbooked (blocks : List BarberBlock) (appts : List Appointment)
    (a : Appointment) (s : Nat) (ha : a.status ≠ "booked") :
    slotTaken blocks (a :: appts) s = slotTaken blocks appts s := by
  unfold slotTaken
  simp only [List.any_cons]
  have hb : apptOverlapCheck slot_minutes s a = false := by
    unfold apptOverlapCheck
    rw [beq_eq_false_iff_ne.mpr ha, Bool.false_and]
  rw [hb]
  simp

theorem availSlots_ignores_nonbooked (db : DB) (p : String) (date : Nat)
    (a : Appointment) (ha : a.status ≠ "booked") (sched : BarberSchedule) :
    availSlots ⟨a :: db.appointments, db.schedules, db.blocks⟩ p date sched =
      availSlots db p date sched := by
  unfold availSlots
  rw [show blocksForDay ⟨a :: db.appointments, db.schedules, db.blocks⟩ p date =
      blocksForDay db p date from rfl]
  apply List.filter_congr
  intro s _
  congr 1
  unfold apptsForDay
  dsimp only
  rw [List.filter_cons]
  split
  · exact slotTaken_cons_nonbooked _ _ a s ha
  · rfl

theorem availReturned_ignores_nonbooked (db : DB) (p : String) (date : Nat)
    (a : Appointment) (ha : a.status ≠ "booked") :
    availReturned ⟨a :: db.appointments, db.schedules, db.blocks⟩ p date =
      availReturned db p date := by
  unfold availReturned
  simp only [show findSchedule ⟨a :: db.appointments, db.schedules, db.blocks⟩ p =
      findSchedule db p from rfl,
    show blocksForDay ⟨a :: db.appointments, db.schedules, db.blocks⟩ p date =
      blocksForDay db p date from rfl,
    availSlots_ignores_nonbooked db p date a ha]

theorem apptsInWindow_any_cons_nonbooked (db : DB) (p : String) (a : Appointment)
    (ha : a.status ≠ "booked") (ws we dur s : Nat) :
    (apptsInWindow ⟨a :: db.appointments, db.schedules, db.blocks⟩ p ws we).any
      (apptOverlapCheck dur s) =
      (apptsInWindow db p ws we).any (apptOverlapCheck dur s) := by
  unfold apptsInWindow
  dsimp only
  rw [List.filter_cons]
  split
  · simp only [List.any_cons]
    have hb : apptOverlapCheck dur s a = false := by
      unfold apptOverlapCheck
      rw [beq_eq_false_iff_ne.mpr ha, Bool.false_and]
    rw [hb]
    simp
  · rfl

theorem hasSameStart_cons_diff (db : DB) (p : String) (a : Appointment) (s : Nat)
    (hne : a.starts_at ≠ s) :
    hasSameStart ⟨a :: db.appointments, db.schedules, db.blocks⟩ p s =
      hasSameStart db p s := by
  unfold hasSameStart
  dsimp only
  rw [List.any_cons]
  have hb : (a.barber_email == p && a.starts_at == s) = false := by
    rw [beq_eq_false_iff_ne.mpr hne, Bool.and_false]
  rw [hb]
  simp

/-- C7 (amended): cancellation is one-way — a second cancel of a
just-canceled appointment answers 409 AlreadyCanceled.  A canceled (indeed
any non-booked) appointment is invisible to the availability computation and
to the store-backed booking operations' overlap check, which consider only
booked-status rows; however the storage uniqueness constraint still blocks
re-booking the provider's exact former start instant (see C10), and the
legacy in-memory booking paths have no status filter at all (see the
counterexample), so the exclusions below are stated for a row whose start
differs from the requested one. -/
theorem cancel_one_way_and_canceled_invisible :
    (∀ (db : DB) (appt_id : Nat) (u u' : String) (t : Appointment) (db' : DB),
      cancel_appointment db appt_id u = .ok (t, db') →
      cancel_appointment db' appt_id u' = .error ⟨409, "Appointment already canceled"⟩) ∧
    (∀ (db : DB) (p : String) (date : Nat) (a : Appointment),
      a.status ≠ "booked" →
      barber_availability ⟨a :: db.appointments, db.schedules, db.blocks⟩ p date =
        barber_availability db p date) ∧
    (∀ (db : DB) (p : String) (appt : AppointmentCreate) (now : Nat) (a : Appointment),
      a.status ≠ "booked" → a.starts_at ≠ appt.starts_at →
      resultError (create_appointment ⟨a :: db.appointments, db.schedules, db.blocks⟩ p appt now) =
        resultError (create_appointment db p appt now)) ∧
    (∀ (db : DB) (p ce : String) (appt : ClientAppointmentCreate) (now : Nat) (a : Appointment),
      a.status ≠ "booked" → a.starts_at ≠ appt.starts_at →
      resultError (client_create_appointment ⟨a :: db.appointments, db.schedules, db.blocks⟩
          p ce appt now) =
        resultError (client_create_appointment db p ce appt now)) := by
  refine ⟨?_, ?_, ?_, ?_⟩
  · intro db appt_id u u' t db' h
    unfold cancel_appointment at h
    split at h
    · simp at h
    · rename_i target hfind
      split at h
      · simp at h
      · split at h
        · simp at h
        · simp only [Except.ok.injEq, Prod.mk.injEq] at h
          obtain ⟨hT, hdb⟩ := h
          subst hdb
          unfold cancel_appointment
          dsimp only
          rw [cancel_find_lemma db.appointments appt_id target hfind]
          simp
  · intro db p date a ha
    unfold barber_availability
    simp only [show findSchedule ⟨a :: db.appointments, db.schedules, db.blocks⟩ p =
        findSchedule db p from rfl,
      availReturned_ignores_nonbooked db p date a ha]
  · intro db p appt now a ha hne
    rw [resultError_create_appointment, resultError_create_appointment]
    unfold bookingChecks
    simp only [show findSchedule ⟨a :: db.appointments, db.schedules, db.blocks⟩ p =
        findSchedule db p from rfl,
      show blockConflictAny ⟨a :: db.appointments, db.schedules, db.blocks⟩ =
        blockConflictAny db from rfl,
      apptsInWindow_any_cons_nonbooked db p a ha,
      hasSameStart_cons_diff db p a appt.starts_at hne]
  · intro db p ce appt now a ha hne
    rw [resultError_client_create_appointment, resultError_client_create_appointment]
    unfold bookingChecks
    simp only [show findSchedule ⟨a :: db.appointments, db.schedules, db.blocks⟩ p =
        findSchedule db p from rfl,
      show blockConflictAny ⟨a :: db.appointments, db.schedules, db.blocks⟩ =
        blockConflictAny db from rfl,
      apptsInWindow_any_cons_nonbooked db p a ha,
      hasSameStart_cons_diff db p a appt.starts_at hne]

/-- C7 witness: the amended theorem applied to concrete states — cancel a
booked haircut then cancel again (409 AlreadyCanceled); a canceled haircut
at 10:00 changes neither the availability of its day nor the outcome of
shape_up bookings at 10:15 in either store-backed path. -/
theorem cancel_one_way_and_canceled_invisible_witness :
    cancel_appointment ⟨[⟨1, 600, "c", "b", "haircut", "booked"⟩], [], []⟩ 1 "c" =
      .ok (⟨1, 600, "c", "b", "haircut", "canceled"⟩,
           ⟨[⟨1, 600, "c", "b", "haircut", "canceled"⟩], [], []⟩) ∧
    cancel_appointment ⟨[⟨1, 600, "c", "b", "haircut", "canceled"⟩], [], []⟩ 1 "b" =
      .error ⟨409, "Appointment already canceled"⟩ ∧
    barber_availability
      ⟨[⟨1, 600, "c", "b", "haircut", "canceled"⟩], [⟨"b", [0], 540, 1080⟩], []⟩ "b" 0 =
      barber_availability ⟨[], [⟨"b", [0], 540, 1080⟩], []⟩ "b" 0 ∧
    resultError (create_appointment
        ⟨[⟨1, 600, "c", "b", "haircut", "canceled"⟩], [⟨"b", [0], 540, 1080⟩], []⟩
        "b" ⟨615, "c2", "shape_up"⟩ 0) =
      resultError (create_appointment ⟨[], [⟨"b", [0], 540, 1080⟩], []⟩
        "b" ⟨615, "c2", "shape_up"⟩ 0) ∧
    resultError (client_create_appointment
        ⟨[⟨1, 600, "c", "b", "haircut", "canceled"⟩], [⟨"b", [0], 540, 1080⟩], []⟩
        "b" "c2" ⟨615, "shape_up"⟩ 0) =
      resultError (client_create_appointment ⟨[], [⟨"b", [0], 540, 1080⟩], []⟩
        "b" "c2" ⟨615, "shape_up"⟩ 0) := by
  refine ⟨rfl, ?_, ?_, ?_, ?_⟩
  · exact cancel_one_way_and_canceled_invisible.1
      ⟨[⟨1, 600, "c", "b", "haircut", "booked"⟩], [], []⟩ 1 "c" "b"
      ⟨1, 600, "c", "b", "haircut", "canceled"⟩
      ⟨[⟨1, 600, "c", "b", "haircut", "canceled"⟩], [], []⟩ rfl
  · exact cancel_one_way_and_canceled_invisible.2.1
      ⟨[], [⟨"b", [0], 540, 1080⟩], []⟩ "b" 0
      ⟨1, 600, "c", "b", "haircut", "canceled"⟩ (by decide)
  · exact cancel_one_way_and_canceled_invisible.2.2.1
      ⟨[], [⟨"b", [0], 540, 1080⟩], []⟩ "b" ⟨615, "c2", "shape_up"⟩ 0
      ⟨1, 600, "c", "b", "haircut", "canceled"⟩ (by decide) (by decide)
  · exact cancel_one_way_and_canceled_invisible.2.2.2
      ⟨[], [⟨"b", [0], 540, 1080⟩], []⟩ "b" "c2" ⟨615, "shape_up"⟩ 0
      ⟨1, 600, "c", "b", "haircut", "canceled"⟩ (by decide) (by decide)

/-! ## C4: availability returns exactly the free grid slots -/

theorem apptOverlapCheck_eq_false_iff (dur s : Nat) (a : Appointment) :
    apptOverlapCheck dur s a = false ↔
      (a.status = "booked" → ∀ d, serviceMinutes a.service = some d →
        overlaps s (s + dur) a.starts_at (a.starts_at + d) = false) := by
  unfold apptOverlapCheck
  cases hd : serviceMinutes a.service with
  | none => simp [hd]
  | some d =>
      by_cases hs2 : a.status = "booked"
      · simp [hd, hs2]
      · simp [hd, hs2]

theorem mem_apptsForDay_iff (db : DB) (p : String) (date : Nat) (a : Appointment) :
    a ∈ apptsForDay db p date ↔
      a ∈ db.appointments ∧ a.barber_email = p ∧ dateOf a.starts_at = date := by
  unfold apptsForDay
  rw [List.mem_filter]
  simp only [Bool.and_eq_true, decide_eq_true_eq, beq_iff_eq]
  constructor
  · rintro ⟨hm, ⟨hb, h1⟩, h2⟩
    refine ⟨hm, hb, ?_⟩
    unfold dateOf
    unfold combine at h1 h2
    omega
  · rintro ⟨hm, hb, hd⟩
    unfold dateOf at hd
    refine ⟨hm, ⟨hb, ?_⟩, ?_⟩ <;> (unfold combine; omega)

theorem mem_blocksForDay_iff (db : DB) (p : String) (date : Nat) (b : BarberBlock) :
    b ∈ blocksForDay db p date ↔
      b ∈ db.blocks ∧ b.barber_email = p ∧ b.date = date := by
  unfold blocksForDay
  rw [List.mem_filter]
  simp [and_assoc]

/-- What the availability route computes, according to the spec: the route
answers the formatted slot list; the list is empty on a non-working weekday
or in the presence of a day_off block; otherwise it holds exactly the grid
slots [s, s+15) inside the working window that overlap no block of the
provider+date and no booked known-service appointment of the provider+date;
and it is strictly increasing (chronological). -/
def availabilityCharacterization (db : DB) (p : String) (date : Nat)
    (sched : BarberSchedule) : Prop :=
  (barber_availability db p date =
    .ok ((availReturned db p date).map (fun s => fmtHM (timeOfDay s)))) ∧
  (sched.working_days.contains (weekday date) = false →
    availReturned db p date = []) ∧
  ((∃ b ∈ db.blocks, b.barber_email = p ∧ b.date = date ∧ b.kind = "day_off") →
    availReturned db p date = []) ∧
  (sched.working_days.contains (weekday date) = true →
   (∀ b ∈ db.blocks, b.barber_email = p → b.date = date → b.kind ≠ "day_off") →
   ∀ s, s ∈ availReturned db p date ↔
     ((∃ k, s = combine date sched.day_start + slot_minutes * k ∧
         s + slot_minutes ≤ combine date sched.day_end) ∧
      (∀ b ∈ db.blocks, b.barber_email = p → b.date = date →
        overlaps s (s + slot_minutes) b.start b.end_ = false) ∧
      (∀ a ∈ db.appointments, a.barber_email = p → dateOf a.starts_at = date →
        a.status = "booked" → ∀ d, serviceMinutes a.service = some d →
        overlaps s (s + slot_minutes) a.starts_at (a.starts_at + d) = false))) ∧
  List.Pairwise (fun x y => x < y) (availReturned db p date)

/-- C4: for every provider with a stored schedule and every date, the
availability route satisfies the full spec characterization: formatted
output of availReturned; empty on non-working weekdays and under day_off
blocks regardless of any other state; otherwise exactly the conflict-free
grid slots, in chronological order. -/
theorem availability_spec :
    ∀ (db : DB) (p : String) (date : Nat) (sched : BarberSchedule),
      findSchedule db p = some sched →
      availabilityCharacterization db p date sched := by
  intro db p date sched hfs
  have hday : ∀ b ∈ db.blocks, b.barber_email = p → b.date = date → b.kind ≠ "day_off" →
      (b.kind == BlockKind.day_off.value) = false := by
    intro b _ _ _ hk
    exact beq_eq_false_iff_ne.mpr hk
  refine ⟨?_, ?_, ?_, ?_, ?_⟩
  · unfold barber_availability
    rw [hfs]
  · intro hc
    unfold availReturned
    rw [hfs]
    dsimp only
    rw [hc]
    rfl
  · rintro ⟨b, hb, hbp, hbd, hbk⟩
    unfold availReturned
    rw [hfs]
    dsimp only
    have hany : (blocksForDay db p date).any (fun b => b.kind == BlockKind.day_off.value) = true := by
      refine List.any_eq_true.mpr ⟨b, (mem_blocksForDay_iff db p date b).mpr ⟨hb, hbp, hbd⟩, ?_⟩
      rw [hbk]
      rfl
    rw [hany]
    split <;> rfl
  · intro hc hnd s
    unfold availReturned
    rw [hfs]
    dsimp only
    rw [hc]
    have hany : (blocksForDay db p date).any (fun b => b.kind == BlockKind.day_off.value) = false := by
      rw [List.any_eq_false]
      intro b hb
      obtain ⟨hbm, hbp, hbd⟩ := (mem_blocksForDay_iff db p date b).mp hb
      simp [hday b hbm hbp hbd (hnd b hbm hbp hbd)]
    rw [hany]
    simp only [Bool.not_true, Bool.false_eq_true, if_false]
    unfold availSlots
    rw [List.mem_filter, gridSlots_mem]
    unfold slotTaken
    simp only [Bool.not_eq_true', Bool.or_eq_false_iff, List.any_eq_false]
    constructor
    · rintro ⟨hgrid, hbl, hap⟩
      refine ⟨hgrid, ?_, ?_⟩
      · intro b hb hbp hbd
        have := hbl b ((mem_blocksForDay_iff db p date b).mpr ⟨hb, hbp, hbd⟩)
        rwa [Bool.not_eq_true] at this
      · intro a ha hab had hst d hd
        have h2 := hap a ((mem_apptsForDay_iff db p date a).mpr ⟨ha, hab, had⟩)
        rw [Bool.not_eq_true, apptOverlapCheck_eq_false_iff] at h2
        exact h2 hst d hd
    · rintro ⟨hgrid, hbl, hap⟩
      refine ⟨hgrid, ?_, ?_⟩
      · intro b hb
        obtain ⟨hbm, hbp, hbd⟩ := (mem_blocksForDay_iff db p date b).mp hb
        rw [Bool.not_eq_true]
        exact hbl b hbm hbp hbd
      · intro a ha
        obtain ⟨ham, hab, had⟩ := (mem_apptsForDay_iff db p date a).mp ha
        rw [Bool.not_eq_true, apptOverlapCheck_eq_false_iff]
        intro hst d hd
        exact hap a ham hab had hst d hd
  · unfold availReturned
    cases hfs2 : findSchedule db p with
    | none => exact List.Pairwise.nil
    | some sched2 =>
        dsimp only
        split
        · exact List.Pairwise.nil
        · split
          · exact List.Pairwise.nil
          · unfold availSlots gridSlots
            exact List.Pairwise.sublist (List.filter_sublist _) (gridSlotsAux_pairwise _ _ _)

/-- C4 witness: the characterization instantiated on a concrete state — one
booked haircut at 10:00 and a 12:00-12:30 lunch block on a Monday
09:00-18:00 schedule. -/
theorem availability_spec_witness :
    findSchedule ⟨[⟨1, 600, "c", "b4", "haircut", "booked"⟩], [⟨"b4", [0], 540, 1080⟩],
        [⟨1, "b4", 0, 720, 750, "lunch_break"⟩]⟩ "b4" = some ⟨"b4", [0], 540, 1080⟩ ∧
    availabilityCharacterization
      ⟨[⟨1, 600, "c", "b4", "haircut", "booked"⟩], [⟨"b4", [0], 540, 1080⟩],
       [⟨1, "b4", 0, 720, 750, "lunch_break"⟩]⟩ "b4" 0 ⟨"b4", [0], 540, 1080⟩ := by
  exact ⟨rfl, availability_spec _ "b4" 0 _ rfl⟩

/-! ## C2: availability/booking consistency -/

/-- C2 (counterexample): availability never consults the clock, so with no
interleaved mutation at all, the slot-start 09:00 returned for the epoch
Monday fails when immediately booked with a matching 15-minute service at
current instant Monday 12:00 — and with the 422 PastBooking error, which is
neither success nor one of the two errors the claim permits. -/
theorem availability_booking_past_cex :
    ((barber_availability ⟨[], [⟨"b2", [0], 540, 1080⟩], []⟩ "b2" 0).toOption.getD
      []).contains "09:00" = true ∧
    serviceMinutes "shape_up" = some slot_minutes ∧
    client_create_appointment ⟨[], [⟨"b2", [0], 540, 1080⟩], []⟩ "b2" "c"
      ⟨540, "shape_up"⟩ 720 =
      .error ⟨422, "Cannot book an appointment in the past"⟩ := by
  exact ⟨rfl, rfl, rfl⟩

/-- C2 (amended): availability and booking agree once the claim is restricted
to close its gaps.  Direction 1: a slot-start returned by availability books
successfully with a service whose duration equals the slot width, provided
additionally the slot is not in the past, the schedule's day_start sits on
the 15-minute grid, and no appointment row of any status already occupies
(provider, slot) — the uniqueness constraint is status-blind.  Direction 2: a
grid slot excluded by availability fails booking with BlockConflict or
DoubleBooked, provided additionally the weekday is a working day (otherwise
the failure would be NotWorkingDay), the same alignment and past conditions,
every day_off block spans the full working window as addBlock creates it,
and every booked known-service appointment of that provider+date starts
inside the current working window (otherwise its conflict is invisible to
the booking query). -/
theorem availability_booking_consistency :
    (∀ (db : DB) (p ce svc : String) (date s now : Nat) (sched : BarberSchedule),
      findSchedule db p = some sched →
      sched.day_end ≤ 1440 →
      sched.day_start % 15 = 0 →
      serviceMinutes svc = some slot_minutes →
      s ∈ availReturned db p date →
      now ≤ s →
      (∀ a ∈ db.appointments, a.barber_email = p → a.starts_at ≠ s) →
      client_create_appointment db p ce ⟨s, svc⟩ now =
        .ok (⟨nextApptId db, s, ce, p, svc, "booked"⟩,
             { db with appointments :=
                db.appointments ++ [⟨nextApptId db, s, ce, p, svc, "booked"⟩] })) ∧
    (∀ (db : DB) (p ce svc : String) (date s now : Nat) (sched : BarberSchedule),
      findSchedule db p = some sched →
      sched.day_end ≤ 1440 →
      sched.day_start % 15 = 0 →
      serviceMinutes svc = some slot_minutes →
      sched.working_days.contains (weekday date) = true →
      s ∈ gridSlots (combine date sched.day_start) (combine date sched.day_end) →
      s ∉ availReturned db p date →
      now ≤ s →
      (∀ b ∈ db.blocks, b.barber_email = p → b.date = date → b.kind = "day_off" →
        b.start = combine date sched.day_start ∧ b.end_ = combine date sched.day_end) →
      (∀ a ∈ db.appointments, a.barber_email = p → dateOf a.starts_at = date →
        a.status = "booked" → (serviceMinutes a.service).isSome = true →
        combine date sched.day_start ≤ a.starts_at ∧
          a.starts_at < combine date sched.day_end) →
      (client_create_appointment db p ce ⟨s, svc⟩ now =
          .error ⟨409, "Appointment overlaps a block"⟩ ∨
       client_create_appointment db p ce ⟨s, svc⟩ now =
          .error ⟨409, "Appointment overlaps an existing appointment"⟩)) := by
  constructor
  · intro db p ce svc date s now sched hfs hde hal hsvc hmem hnow huniq
    unfold availReturned at hmem
    rw [hfs] at hmem
    dsimp only at hmem
    split at hmem
    · simp at hmem
    · rename_i hcb
      split at hmem
      · simp at hmem
      · unfold availSlots at hmem
        rw [List.mem_filter] at hmem
        obtain ⟨hgrid, hfree⟩ := hmem
        rw [gridSlots_mem] at hgrid
        obtain ⟨k, hk, hkend⟩ := hgrid
        have hc : sched.working_days.contains (weekday date) = true := by
          cases hcv : sched.working_days.contains (weekday date) with
          | false => rw [hcv] at hcb; simp at hcb
          | true => rfl
        have hws : combine date sched.day_start ≤ s := by
          rw [hk]; omega
        have hds : dateOf s = date := by
          unfold dateOf
          unfold combine at hk hkend hws
          unfold slot_minutes at hk hkend
          omega
        have halign : minuteOfHour s % 15 = 0 := by
          unfold minuteOfHour
          unfold combine at hk
          unfold slot_minutes at hk
          omega
        rw [Bool.not_eq_true'] at hfree
        unfold slotTaken at hfree
        rw [Bool.or_eq_false_iff] at hfree
        obtain ⟨hbl0, hap0⟩ := hfree
        have h5 : sched.working_days.contains (weekday (dateOf s)) = true := by
          rw [hds]; exact hc
        have h6 : combine (dateOf s) sched.day_start ≤ s := by
          rw [hds]; exact hws
        have h7 : s + slot_minutes ≤ combine (dateOf s) sched.day_end := by
          rw [hds]; exact hkend
        rw [client_create_eval db p ce svc s now slot_minutes sched hsvc halign hnow hfs h5 h6 h7]
        rw [hds]
        have hblc : blockConflictAny db p date s (s + slot_minutes) = false := by
          unfold blockConflictAny
          exact hbl0
        have hwin : (apptsInWindow db p (combine date sched.day_start)
            (combine date sched.day_end)).any (apptOverlapCheck slot_minutes s) = false := by
          rw [List.any_eq_false]
          intro a hamem
          rw [List.any_eq_false] at hap0
          apply hap0
          unfold apptsInWindow at hamem
          rw [List.mem_filter] at hamem
          obtain ⟨ham, hcond⟩ := hamem
          simp only [Bool.and_eq_true, decide_eq_true_eq, beq_iff_eq] at hcond
          obtain ⟨⟨hab, h1⟩, h2⟩ := hcond
          rw [mem_apptsForDay_iff]
          refine ⟨ham, hab, ?_⟩
          unfold dateOf
          unfold combine at h1 h2
          omega
        have hss : hasSameStart db p s = false := by
          unfold hasSameStart
          rw [List.any_eq_false]
          intro a ham hcon
          simp only [Bool.and_eq_true, beq_iff_eq] at hcon
          exact huniq a ham hcon.1 hcon.2
        rw [hblc, hwin, hss]
        simp
  · intro db p ce svc date s now sched hfs hde hal hsvc hc hgrid hnot hnow hdo hwinb
    rw [gridSlots_mem] at hgrid
    obtain ⟨k, hk, hkend⟩ := hgrid
    have hws : combine date sched.day_start ≤ s := by rw [hk]; omega
    have hds : dateOf s = date := by
      unfold dateOf
      unfold combine at hk hkend hws
      unfold slot_minutes at hk hkend
      omega
    have halign : minuteOfHour s % 15 = 0 := by
      unfold minuteOfHour
      unfold combine at hk
      unfold slot_minutes at hk
      omega
    have h5 : sched.working_days.contains (weekday (dateOf s)) = true := by
      rw [hds]; exact hc
    have h6 : combine (dateOf s) sched.day_start ≤ s := by rw [hds]; exact hws
    have h7 : s + slot_minutes ≤ combine (dateOf s) sched.day_end := by
      rw [hds]; exact hkend
    rw [client_create_eval db p ce svc s now slot_minutes sched hsvc halign hnow hfs h5 h6 h7]
    rw [hds]
    unfold availReturned at hnot
    rw [hfs] at hnot
    dsimp only at hnot
    rw [hc] at hnot
    simp only [Bool.not_true, Bool.false_eq_true, if_false] at hnot
    cases hdayoff : (blocksForDay db p date).any (fun b => b.kind == BlockKind.day_off.value) with
    | true =>
        obtain ⟨b, hbmem, hbk⟩ := List.any_eq_true.mp hdayoff
        obtain ⟨hbm, hbp, hbd⟩ := (mem_blocksForDay_iff db p date b).mp hbmem
        have hbk2 : b.kind = "day_off" := beq_iff_eq.mp hbk
        obtain ⟨hbs, hbe⟩ := hdo b hbm hbp hbd hbk2
        have hblc : blockConflictAny db p date s (s + slot_minutes) = true := by
          unfold blockConflictAny
          refine List.any_eq_true.mpr ⟨b, hbmem, ?_⟩
          rw [hbs, hbe]
          unfold overlaps
          unfold combine at hws hkend ⊢
          unfold slot_minutes at hkend ⊢
          simp only [Bool.and_eq_true, decide_eq_true_eq]
          omega
        left
        rw [hblc]
        rfl
    | false =>
        rw [hdayoff] at hnot
        simp only [Bool.false_eq_true, if_false] at hnot
        unfold availSlots at hnot
        rw [List.mem_filter] at hnot
        push_neg at hnot
        have hg : s ∈ gridSlots (combine date sched.day_start) (combine date sched.day_end) := by
          rw [gridSlots_mem]
          exact ⟨k, hk, hkend⟩
        have hnp := hnot hg
        have htaken : slotTaken (blocksForDay db p date) (apptsForDay db p date) s = true := by
          cases ht : slotTaken (blocksForDay db p date) (apptsForDay db p date) s with
          | true => rfl
          | false => exact absurd (by simp [ht]) hnp
        unfold slotTaken at htaken
        rw [Bool.or_eq_true] at htaken
        rcases htaken with hbl | hap
        · have hblc : blockConflictAny db p date s (s + slot_minutes) = true := by
            unfold blockConflictAny
            exact hbl
          left
          rw [hblc]
          rfl
        · cases hb0 : (blocksForDay db p date).any
              (fun b => overlaps s (s + slot_minutes) b.start b.end_) with
          | true =>
              have hblc : blockConflictAny db p date s (s + slot_minutes) = true := by
                unfold blockConflictAny
                exact hb0
              left
              rw [hblc]
              rfl
          | false =>
              have hblc : blockConflictAny db p date s (s + slot_minutes) = false := by
                unfold blockConflictAny
                exact hb0
              obtain ⟨a, hamem, hchk⟩ := List.any_eq_true.mp hap
              obtain ⟨ham, hab, had⟩ := (mem_apptsForDay_iff db p date a).mp hamem
              unfold apptOverlapCheck at hchk
              rw [Bool.and_eq_true] at hchk
              obtain ⟨hst, hov⟩ := hchk
              have hst2 : a.status = "booked" := beq_iff_eq.mp hst
              cases hsd : serviceMinutes a.service with
              | none => rw [hsd] at hov; simp at hov
              | some d =>
                  rw [hsd] at hov
                  obtain ⟨ho1, ho2⟩ := hwinb a ham hab had hst2 (by rw [hsd]; rfl)
                  have hwint : (apptsInWindow db p (combine date sched.day_start)
                      (combine date sched.day_end)).any (apptOverlapCheck slot_minutes s) = true := by
                    refine List.any_eq_true.mpr ⟨a, ?_, ?_⟩
                    · unfold apptsInWindow
                      rw [List.mem_filter]
                      refine ⟨ham, ?_⟩
                      simp [hab, ho1, ho2]
                    · unfold apptOverlapCheck
                      rw [hsd, Bool.and_eq_true]
                      exact ⟨hst, hov⟩
                  right
                  rw [hblc, hwint]
                  rfl

/-- C2 witness: with one booked haircut at 10:00 on Monday 09:00-18:00, the
returned slot 09:00 books successfully with shape_up at current instant
09:00, and the excluded grid slot 10:00 fails with one of the two permitted
conflict errors. -/
theorem availability_booking_consistency_witness :
    (540 ∈ availReturned
      ⟨[⟨1, 600, "c", "bw", "haircut", "booked"⟩], [⟨"bw", [0], 540, 1080⟩], []⟩ "bw" 0) ∧
    client_create_appointment
      ⟨[⟨1, 600, "c", "bw", "haircut", "booked"⟩], [⟨"bw", [0], 540, 1080⟩], []⟩
      "bw" "c2" ⟨540, "shape_up"⟩ 540 =
      .ok (⟨2, 540, "c2", "bw", "shape_up", "booked"⟩,
           ⟨[⟨1, 600, "c", "bw", "haircut", "booked"⟩, ⟨2, 540, "c2", "bw", "shape_up", "booked"⟩],
            [⟨"bw", [0], 540, 1080⟩], []⟩) ∧
    (600 ∉ availReturned
      ⟨[⟨1, 600, "c", "bw", "haircut", "booked"⟩], [⟨"bw", [0], 540, 1080⟩], []⟩ "bw" 0) ∧
    (client_create_appointment
        ⟨[⟨1, 600, "c", "bw", "haircut", "booked"⟩], [⟨"bw", [0], 540, 1080⟩], []⟩
        "bw" "c2" ⟨600, "shape_up"⟩ 540 =
        .error ⟨409, "Appointment overlaps a block"⟩ ∨
     client_create_appointment
        ⟨[⟨1, 600, "c", "bw", "haircut", "booked"⟩], [⟨"bw", [0], 540, 1080⟩], []⟩
        "bw" "c2" ⟨600, "shape_up"⟩ 540 =
        .error ⟨409, "Appointment overlaps an existing appointment"⟩) := by
  refine ⟨by decide, ?_, by decide, ?_⟩
  · exact availability_booking_consistency.1
      ⟨[⟨1, 600, "c", "bw", "haircut", "booked"⟩], [⟨"bw", [0], 540, 1080⟩], []⟩
      "bw" "c2" "shape_up" 0 540 540 ⟨"bw", [0], 540, 1080⟩
      rfl (by decide) (by decide) rfl (by decide) (by decide) (by decide)
  · exact availability_booking_consistency.2
      ⟨[⟨1, 600, "c", "bw", "haircut", "booked"⟩], [⟨"bw", [0], 540, 1080⟩], []⟩
      "bw" "c2" "shape_up" 0 600 540 ⟨"bw", [0], 540, 1080⟩
      rfl (by decide) (by decide) rfl (by decide) (by decide) (by decide) (by decide)
      (by decide) (by decide)
